import Mathlib

/-!
# Verification of `json-strip-comments` (oxc-project)

A shallow embedding of `src/lib.rs` (and the wasm binding in `wasm/src/lib.rs`)
of the `json-strip-comments` crate, together with proofs about the embedded
functions.

Buffers are modelled as `List Nat` of byte values (0 ≤ b < 256 in intended use;
no arithmetic overflows occur since bytes are only compared and overwritten).
In-place mutation is modelled by returning the rewritten buffer; `Result` is
modelled by `Except`, where the `error` payload carries the buffer contents at
the moment the error is raised (the Rust code mutates in place, so on error the
caller's buffer holds the partially blanked bytes).

Byte values used below:
  9 `\t`, 10 `\n`, 12 FF, 13 `\r`, 32 space, 34 `"`, 35 `#`, 42 `*`, 44 `,`,
  47 `/`, 92 `\\`, 93 `]`, 125 `}`.
-/

namespace JsonStripComments

/-- The scanner state, from `enum State` in `src/lib.rs`. -/
inductive State where
  | Top
  | InString
  | StringEscape
  | InComment
  | InBlockComment
  | MaybeCommentEnd
  | InLineComment
deriving DecidableEq, Repr

/-- Mirrors `fn top(c: &mut u8) -> State`: returns the (possibly blanked)
byte and the next state. -/
def top (c : Nat) : Nat × State :=
  if c = 34 then (c, .InString)
  else if c = 47 then (32, .InComment)
  else if c = 35 then (32, .InLineComment)
  else (c, .Top)

/-- Mirrors `fn in_string(c: u8) -> State`. -/
def in_string (c : Nat) : State :=
  if c = 34 then .Top
  else if c = 92 then .StringEscape
  else .InString

/-- Mirrors `fn in_comment(c: &mut u8) -> Result<State>`: on `*` or `/` the
byte is blanked and the scan continues; any other byte is `InvalidData`
(raised before the byte is mutated). -/
def in_comment (c : Nat) : Except Unit (Nat × State) :=
  if c = 42 then .ok (32, .InBlockComment)
  else if c = 47 then .ok (32, .InLineComment)
  else .error ()

/-- Mirrors `fn maybe_comment_end(c: &mut u8) -> State`: the byte is always
blanked. -/
def maybe_comment_end (c : Nat) : Nat × State :=
  (32, if c = 47 then .Top else if c = 42 then .MaybeCommentEnd else .InBlockComment)

/-- Rust `u8::is_ascii_whitespace`: space, `\t`, `\n`, FF, `\r`. -/
def is_ascii_whitespace (c : Nat) : Bool :=
  c = 32 || c = 9 || c = 10 || c = 12 || c = 13

/-- `memchr::memchr`: offset of the first occurrence of `b`. -/
def memchr (b : Nat) : List Nat → Option Nat
  | [] => none
  | c :: r => if c = b then some 0 else (memchr b r).map (· + 1)

/-- Mirrors `fn consume_line_comments(buf, i)` acting on the suffix `buf[i..]`:
returns the rewritten bytes of the consumed region, the untouched remainder,
and the next state.  On `memchr(b'\n')` hit, bytes strictly before the `\n`
are blanked, the `\n` itself is kept and skipped (`Top` is returned and the
caller advances past it); otherwise the whole suffix is blanked. -/
def consume_line_comments (l : List Nat) : List Nat × List Nat × State :=
  match memchr 10 l with
  | some k => (List.replicate k 32 ++ [10], l.drop (k + 1), .Top)
  | none => (List.replicate l.length 32, [], .InLineComment)

/-- Mirrors `fn consume_block_comments(buf, i)` acting on the suffix `buf[i..]`:
bytes up to and including the first `*` are blanked (`buf[cur..=*i].fill(b' ')`),
otherwise the whole suffix is blanked. -/
def consume_block_comments (l : List Nat) : List Nat × List Nat × State :=
  match memchr 42 l with
  | some k => (List.replicate (k + 1) 32, l.drop (k + 1), .MaybeCommentEnd)
  | none => (List.replicate l.length 32, [], .InBlockComment)

/-- Prepend already-rewritten bytes `a` to the buffer carried by a scan
result (both on success and on error). -/
def pre (a : List Nat) :
    Except (List Nat) (List Nat × State) → Except (List Nat) (List Nat × State)
  | .ok (out, s) => .ok (a ++ out, s)
  | .error buf => .error (a ++ buf)

/-- Prepend already-rewritten bytes `a` to the buffer carried by a lookahead
result (both on success and on error). -/
def preC (a : List Nat) :
    Except (List Nat) (Bool × List Nat × List Nat × State) →
    Except (List Nat) (Bool × List Nat × List Nat × State)
  | .ok (b, out, rem, s) => .ok (b, a ++ out, rem, s)
  | .error buf => .error (a ++ buf)

theorem memchr_some_pos {b : Nat} {l : List Nat} {k : Nat}
    (h : memchr b l = some k) : k < l.length := by
  induction l generalizing k with
  | nil => simp [memchr] at h
  | cons c r ih =>
    rw [memchr] at h
    by_cases hc : c = b
    · rw [if_pos hc] at h
      simp only [Option.some.injEq] at h
      simp [← h]
    · rw [if_neg hc] at h
      simp only [Option.map_eq_some'] at h
      obtain ⟨k', hk', rfl⟩ := h
      have := ih hk'
      simp only [List.length_cons]
      omega

theorem consume_block_comments_rem_lt (c : Nat) (rest : List Nat) :
    ((consume_block_comments (c :: rest)).2.1).length < (c :: rest).length := by
  unfold consume_block_comments
  cases h : memchr 42 (c :: rest) with
  | none => simp
  | some k => simp; omega

theorem consume_line_comments_rem_lt (c : Nat) (rest : List Nat) :
    ((consume_line_comments (c :: rest)).2.1).length < (c :: rest).length := by
  unfold consume_line_comments
  cases h : memchr 10 (c :: rest) with
  | none => simp
  | some k => simp; omega

/-- Mirrors `fn consume_comment_whitespace_until_maybe_bracket(state, buf, i)`:
the forward scan run after a `,` seen at `Top`.  It walks whitespace (in
`Top`) and whole comments using the ordinary transition functions; it stops
at the first non-whitespace byte reached in `Top` state (after `top` has been
applied to it), reporting whether that byte is `}` or `]`.  Returns
`(sawBracket, rewritten consumed bytes, remainder, next state)`. -/
def consume_comment_whitespace_until_maybe_bracket :
    State → List Nat → Except (List Nat) (Bool × List Nat × List Nat × State)
  | s, [] => .ok (false, [], [], s)
  | s, c :: rest =>
    match s with
    | .Top =>
      if is_ascii_whitespace (top c).1 then
        preC [(top c).1]
          (consume_comment_whitespace_until_maybe_bracket (top c).2 rest)
      else
        .ok (decide ((top c).1 = 125 ∨ (top c).1 = 93), [(top c).1], rest, (top c).2)
    | .InString =>
      preC [c] (consume_comment_whitespace_until_maybe_bracket (in_string c) rest)
    | .StringEscape =>
      preC [c] (consume_comment_whitespace_until_maybe_bracket .InString rest)
    | .InComment =>
      match in_comment c with
      | .error _ => .error (c :: rest)
      | .ok q => preC [q.1] (consume_comment_whitespace_until_maybe_bracket q.2 rest)
    | .InBlockComment =>
      match hbc : consume_block_comments (c :: rest) with
      | (out0, rem0, s0) =>
        preC out0 (consume_comment_whitespace_until_maybe_bracket s0 rem0)
    | .MaybeCommentEnd =>
      preC [(maybe_comment_end c).1]
        (consume_comment_whitespace_until_maybe_bracket (maybe_comment_end c).2 rest)
    | .InLineComment =>
      match hlc : consume_line_comments (c :: rest) with
      | (out0, rem0, s0) =>
        preC out0 (consume_comment_whitespace_until_maybe_bracket s0 rem0)
termination_by s l => l.length
decreasing_by
  · simp
  · simp
  · simp
  · simp
  · have := consume_block_comments_rem_lt c rest
    rw [hbc] at this
    simpa using this
  · simp
  · have := consume_line_comments_rem_lt c rest
    rw [hlc] at this
    simpa using this

theorem pre_ok_inv {a : List Nat} {x : Except (List Nat) (List Nat × State)}
    {out : List Nat} {s2 : State}
    (h : pre a x = .ok (out, s2)) :
    ∃ out0, x = .ok (out0, s2) ∧ out = a ++ out0 := by
  cases x with
  | ok y =>
    obtain ⟨out0, s0⟩ := y
    simp [pre] at h
    obtain ⟨h2, rfl⟩ := h
    exact ⟨out0, rfl, h2.symm⟩
  | error buf => simp [pre] at h

theorem pre_error_inv {a : List Nat} {x : Except (List Nat) (List Nat × State)}
    {buf : List Nat}
    (h : pre a x = .error buf) :
    ∃ buf0, x = .error buf0 ∧ buf = a ++ buf0 := by
  cases x with
  | ok y => obtain ⟨out0, s0⟩ := y; simp [pre] at h
  | error buf0 =>
    simp [pre] at h
    exact ⟨buf0, rfl, h.symm⟩

theorem preC_ok_inv {a : List Nat} {x : Except (List Nat) (Bool × List Nat × List Nat × State)}
    {b : Bool} {out rem : List Nat} {s2 : State}
    (h : preC a x = .ok (b, out, rem, s2)) :
    ∃ out0, x = .ok (b, out0, rem, s2) ∧ out = a ++ out0 := by
  cases x with
  | ok y =>
    obtain ⟨b2, out0, rem0, s0⟩ := y
    simp [preC] at h
    obtain ⟨rfl, h2, rfl, rfl⟩ := h
    exact ⟨out0, rfl, h2.symm⟩
  | error buf => simp [preC] at h

theorem preC_error_inv {a : List Nat} {x : Except (List Nat) (Bool × List Nat × List Nat × State)}
    {buf : List Nat}
    (h : preC a x = .error buf) :
    ∃ buf0, x = .error buf0 ∧ buf = a ++ buf0 := by
  cases x with
  | ok y => obtain ⟨b2, out0, rem0, s0⟩ := y; simp [preC] at h
  | error buf0 =>
    simp [preC] at h
    exact ⟨buf0, rfl, h.symm⟩

theorem cwub_rem_le {s : State} {l : List Nat} {b : Bool} {out rem : List Nat} {s2 : State}
    (h : consume_comment_whitespace_until_maybe_bracket s l = .ok (b, out, rem, s2)) :
    rem.length ≤ l.length := by
  induction s, l using consume_comment_whitespace_until_maybe_bracket.induct
    generalizing b out rem s2 with
  | case1 s =>
    rw [consume_comment_whitespace_until_maybe_bracket] at h
    simp at h
    obtain ⟨rfl, rfl, rfl, rfl⟩ := h
    simp
  | case2 c rest hws ih =>
    rw [consume_comment_whitespace_until_maybe_bracket, if_pos hws] at h
    obtain ⟨out0, hx, rfl⟩ := preC_ok_inv h
    have := ih hx
    simp
    omega
  | case3 c rest hws =>
    rw [consume_comment_whitespace_until_maybe_bracket, if_neg hws] at h
    simp at h
    obtain ⟨rfl, rfl, rfl, rfl⟩ := h
    simp
  | case4 c rest ih =>
    rw [consume_comment_whitespace_until_maybe_bracket] at h
    obtain ⟨out0, hx, rfl⟩ := preC_ok_inv h
    have := ih hx
    simp
    omega
  | case5 c rest ih =>
    rw [consume_comment_whitespace_until_maybe_bracket] at h
    obtain ⟨out0, hx, rfl⟩ := preC_ok_inv h
    have := ih hx
    simp
    omega
  | case6 c rest a ha =>
    rw [consume_comment_whitespace_until_maybe_bracket] at h
    simp [ha] at h
  | case7 c rest q hq ih =>
    rw [consume_comment_whitespace_until_maybe_bracket] at h
    simp only [hq] at h
    obtain ⟨out0, hx, rfl⟩ := preC_ok_inv h
    have := ih hx
    simp
    omega
  | case8 c rest out0 rem0 s0 hbc ih =>
    rw [consume_comment_whitespace_until_maybe_bracket] at h
    simp only [hbc] at h
    obtain ⟨out1, hx, rfl⟩ := preC_ok_inv h
    have h1 := ih hx
    have h2 := consume_block_comments_rem_lt c rest
    rw [hbc] at h2
    simp at h2 ⊢
    omega
  | case9 c rest ih =>
    rw [consume_comment_whitespace_until_maybe_bracket] at h
    obtain ⟨out0, hx, rfl⟩ := preC_ok_inv h
    have := ih hx
    simp
    omega
  | case10 c rest out0 rem0 s0 hlc ih =>
    rw [consume_comment_whitespace_until_maybe_bracket] at h
    simp only [hlc] at h
    obtain ⟨out1, hx, rfl⟩ := preC_ok_inv h
    have h1 := ih hx
    have h2 := consume_line_comments_rem_lt c rest
    rw [hlc] at h2
    simp at h2 ⊢
    omega

/-- Mirrors `fn strip_buf(state: &mut State, buf: &mut [u8]) -> Result<()>`:
the main scan loop.  On a `,` seen in `Top` (the cached original byte is
tested, and the lookahead starts in the state `top` returned for it), the
lookahead decides whether the comma is blanked; the main scan then resumes
where the lookahead stopped.  Returns the rewritten buffer and the final
state; on error the payload is the buffer at the moment of failure. -/
def strip_buf : State → List Nat → Except (List Nat) (List Nat × State)
  | s, [] => .ok ([], s)
  | s, c :: rest =>
    match s with
    | .Top =>
      if c = 44 then
        -- `top` maps `,` to `Top`, so the lookahead starts in `Top`
        -- (`let mut temp_state = new_state` with `new_state = top(c)`).
        match hcw : consume_comment_whitespace_until_maybe_bracket .Top rest with
        | .error buf => .error (c :: buf)
        | .ok (isBracket, out, rem, s2) =>
          pre ((if isBracket then 32 else c) :: out) (strip_buf s2 rem)
      else
        pre [(top c).1] (strip_buf (top c).2 rest)
    | .InString => pre [c] (strip_buf (in_string c) rest)
    | .StringEscape => pre [c] (strip_buf .InString rest)
    | .InComment =>
      match in_comment c with
      | .error _ => .error (c :: rest)
      | .ok q => pre [q.1] (strip_buf q.2 rest)
    | .InBlockComment =>
      match hbc : consume_block_comments (c :: rest) with
      | (out0, rem0, s0) => pre out0 (strip_buf s0 rem0)
    | .MaybeCommentEnd =>
      pre [(maybe_comment_end c).1] (strip_buf (maybe_comment_end c).2 rest)
    | .InLineComment =>
      match hlc : consume_line_comments (c :: rest) with
      | (out0, rem0, s0) => pre out0 (strip_buf s0 rem0)
termination_by s l => l.length
decreasing_by
  · have := cwub_rem_le hcw
    simp
    omega
  · simp
  · simp
  · simp
  · simp
  · have := consume_block_comments_rem_lt c rest
    rw [hbc] at this
    simpa using this
  · simp
  · have := consume_line_comments_rem_lt c rest
    rw [hlc] at this
    simpa using this

/-- Mirrors `pub fn strip_comments_in_place(s: &mut str) -> Result<()>`:
runs `strip_buf` once over the whole buffer from a fresh `Top` state.  Note
that it performs no end-of-input check on the final state. -/
def strip_comments_in_place (l : List Nat) : Except (List Nat) (List Nat) :=
  match strip_buf .Top l with
  | .ok (out, _) => .ok out
  | .error buf => .error buf

/-- Mirrors `pub fn strip(s: &mut str) -> Result<()>`. -/
def strip (l : List Nat) : Except (List Nat) (List Nat) :=
  strip_comments_in_place l

namespace StripComments

/-- Mirrors `impl Read for StripComments`' `fn read` for a single inner read
that returned `chunk` (`chunk = []` models a zero-byte inner read): a
non-empty chunk is scanned with the persisted state; a zero-byte read
reports `InvalidData` unless the state is `Top` or `InLineComment`. -/
def read (state : State) (chunk : List Nat) :
    Except (List Nat) (List Nat × State) :=
  if 0 < chunk.length then
    strip_buf state chunk
  else if state ≠ .Top ∧ state ≠ .InLineComment then
    .error []
  else
    .ok ([], state)

/-- Driving `StripComments::read` to exhaustion (as `read_to_string` does):
feed the chunks in order, then a final zero-byte read for end-of-input.
Collects the rewritten bytes; any error gives overall failure. -/
def readAll (state : State) : List (List Nat) → Except Unit (List Nat)
  | [] =>
    match read state [] with
    | .ok _ => .ok []
    | .error _ => .error ()
  | chunk :: chunks =>
    match read state chunk with
    | .error _ => .error ()
    | .ok (out, state2) =>
      match readAll state2 chunks with
      | .error _ => .error ()
      | .ok res => .ok (out ++ res)

end StripComments

/-- Mirrors the wasm binding's legacy `CommentSettings` (four optional,
deprecated, ignored flags). -/
structure CommentSettings where
  block_comments : Option Bool
  slash_line_comments : Option Bool
  hash_line_comments : Option Bool
  trailing_commas : Option Bool

namespace Wasm

/-- Mirrors the wasm `pub fn strip(string: String, _settings: Option<CommentSettings>) -> String`:
the settings are ignored, the `Result` of `strip_comments_in_place` is
discarded (`let _ = ...`), and the (possibly partially rewritten) string is
returned either way. -/
def strip (input : List Nat) (_settings : Option CommentSettings) : List Nat :=
  match strip_comments_in_place input with
  | .ok out => out
  | .error buf => buf

end Wasm

/-! ## Unfolding and one-byte step lemmas

The `memchr`-based runs in `consume_block_comments` / `consume_line_comments`
are equivalent to blanking one byte at a time; the lemmas below express the
scan (and the comma lookahead) as one-byte steps, which all structural proofs
use. -/

theorem pre_pre (a b : List Nat) (x : Except (List Nat) (List Nat × State)) :
    pre a (pre b x) = pre (a ++ b) x := by
  cases x with
  | ok y => obtain ⟨o, s⟩ := y; simp [pre]
  | error buf => simp [pre]

theorem preC_preC (a b : List Nat) (x : Except (List Nat) (Bool × List Nat × List Nat × State)) :
    preC a (preC b x) = preC (a ++ b) x := by
  cases x with
  | ok y => obtain ⟨q, o, r, s⟩ := y; simp [preC]
  | error buf => simp [preC]

theorem pre_nil (x : Except (List Nat) (List Nat × State)) : pre [] x = x := by
  cases x with
  | ok y => obtain ⟨o, s⟩ := y; simp [pre]
  | error buf => simp [pre]

theorem preC_nil (x : Except (List Nat) (Bool × List Nat × List Nat × State)) :
    preC [] x = x := by
  cases x with
  | ok y => obtain ⟨q, o, r, s⟩ := y; simp [preC]
  | error buf => simp [preC]

theorem consume_block_comments_cons_star (r : List Nat) :
    consume_block_comments (42 :: r) = ([32], r, .MaybeCommentEnd) := by
  simp [consume_block_comments, memchr]

theorem consume_block_comments_cons_ne {c : Nat} (hc : c ≠ 42) (r : List Nat) :
    consume_block_comments (c :: r) =
      (32 :: (consume_block_comments r).1, (consume_block_comments r).2.1,
        (consume_block_comments r).2.2) := by
  unfold consume_block_comments
  rw [memchr, if_neg hc]
  cases hm : memchr 42 r with
  | none => simp [List.replicate_succ]
  | some k => simp [List.replicate_succ]

theorem consume_line_comments_cons_nl (r : List Nat) :
    consume_line_comments (10 :: r) = ([10], r, .Top) := by
  simp [consume_line_comments, memchr]

theorem consume_line_comments_cons_ne {c : Nat} (hc : c ≠ 10) (r : List Nat) :
    consume_line_comments (c :: r) =
      (32 :: (consume_line_comments r).1, (consume_line_comments r).2.1,
        (consume_line_comments r).2.2) := by
  unfold consume_line_comments
  rw [memchr, if_neg hc]
  cases hm : memchr 10 r with
  | none => simp [List.replicate_succ]
  | some k => simp [List.replicate_succ]

theorem strip_buf_nil (s : State) : strip_buf s [] = .ok ([], s) := by
  rw [strip_buf]

theorem strip_buf_top {c : Nat} (hc : c ≠ 44) (r : List Nat) :
    strip_buf .Top (c :: r) = pre [(top c).1] (strip_buf (top c).2 r) := by
  rw [strip_buf, if_neg hc]

theorem strip_buf_instring (c : Nat) (r : List Nat) :
    strip_buf .InString (c :: r) = pre [c] (strip_buf (in_string c) r) := by
  rw [strip_buf]

theorem strip_buf_escape (c : Nat) (r : List Nat) :
    strip_buf .StringEscape (c :: r) = pre [c] (strip_buf .InString r) := by
  rw [strip_buf]

theorem strip_buf_incomment_ok {c : Nat} {q : Nat × State} (hq : in_comment c = .ok q)
    (r : List Nat) :
    strip_buf .InComment (c :: r) = pre [q.1] (strip_buf q.2 r) := by
  rw [strip_buf]
  split
  all_goals rename_i heq
  all_goals rw [hq] at heq
  all_goals cases heq
  rfl

theorem strip_buf_incomment_err {c : Nat} (hq : in_comment c = .error ())
    (r : List Nat) :
    strip_buf .InComment (c :: r) = .error (c :: r) := by
  rw [strip_buf]
  split
  all_goals rename_i heq
  all_goals rw [hq] at heq
  all_goals cases heq

theorem strip_buf_block_run (l : List Nat) :
    strip_buf .InBlockComment l =
      pre (consume_block_comments l).1
        (strip_buf (consume_block_comments l).2.2 (consume_block_comments l).2.1) := by
  cases l with
  | nil => simp [strip_buf, consume_block_comments, memchr, pre_nil]
  | cons c r => rw [strip_buf]

theorem strip_buf_line_run (l : List Nat) :
    strip_buf .InLineComment l =
      pre (consume_line_comments l).1
        (strip_buf (consume_line_comments l).2.2 (consume_line_comments l).2.1) := by
  cases l with
  | nil => simp [strip_buf, consume_line_comments, memchr, pre_nil]
  | cons c r => rw [strip_buf]

theorem strip_buf_block (c : Nat) (r : List Nat) :
    strip_buf .InBlockComment (c :: r) =
      pre [32] (strip_buf (if c = 42 then .MaybeCommentEnd else .InBlockComment) r) := by
  by_cases hc : c = 42
  · subst hc
    rw [strip_buf_block_run, consume_block_comments_cons_star]
    simp
  · rw [strip_buf_block_run, consume_block_comments_cons_ne hc]
    rw [if_neg hc, strip_buf_block_run]
    simp [pre_pre]

theorem strip_buf_mce (c : Nat) (r : List Nat) :
    strip_buf .MaybeCommentEnd (c :: r) =
      pre [32] (strip_buf (maybe_comment_end c).2 r) := by
  rw [strip_buf]
  rfl

theorem strip_buf_line (c : Nat) (r : List Nat) :
    strip_buf .InLineComment (c :: r) =
      if c = 10 then pre [10] (strip_buf .Top r)
      else pre [32] (strip_buf .InLineComment r) := by
  by_cases hc : c = 10
  · subst hc
    rw [strip_buf_line_run, consume_line_comments_cons_nl]
    simp
  · rw [strip_buf_line_run, consume_line_comments_cons_ne hc]
    rw [if_neg hc, strip_buf_line_run]
    simp [pre_pre]

theorem cwub_nil (s : State) :
    consume_comment_whitespace_until_maybe_bracket s [] = .ok (false, [], [], s) := by
  rw [consume_comment_whitespace_until_maybe_bracket]

theorem cwub_top_ws {c : Nat} (hws : is_ascii_whitespace (top c).1) (r : List Nat) :
    consume_comment_whitespace_until_maybe_bracket .Top (c :: r) =
      preC [(top c).1] (consume_comment_whitespace_until_maybe_bracket (top c).2 r) := by
  rw [consume_comment_whitespace_until_maybe_bracket, if_pos hws]

theorem cwub_top_stop {c : Nat} (hws : ¬ is_ascii_whitespace (top c).1) (r : List Nat) :
    consume_comment_whitespace_until_maybe_bracket .Top (c :: r) =
      .ok (decide ((top c).1 = 125 ∨ (top c).1 = 93), [(top c).1], r, (top c).2) := by
  rw [consume_comment_whitespace_until_maybe_bracket, if_neg hws]

theorem cwub_instring (c : Nat) (r : List Nat) :
    consume_comment_whitespace_until_maybe_bracket .InString (c :: r) =
      preC [c] (consume_comment_whitespace_until_maybe_bracket (in_string c) r) := by
  rw [consume_comment_whitespace_until_maybe_bracket]

theorem cwub_escape (c : Nat) (r : List Nat) :
    consume_comment_whitespace_until_maybe_bracket .StringEscape (c :: r) =
      preC [c] (consume_comment_whitespace_until_maybe_bracket .InString r) := by
  rw [consume_comment_whitespace_until_maybe_bracket]

theorem cwub_incomment_ok {c : Nat} {q : Nat × State} (hq : in_comment c = .ok q)
    (r : List Nat) :
    consume_comment_whitespace_until_maybe_bracket .InComment (c :: r) =
      preC [q.1] (consume_comment_whitespace_until_maybe_bracket q.2 r) := by
  rw [consume_comment_whitespace_until_maybe_bracket]
  split
  all_goals rename_i heq
  all_goals rw [hq] at heq
  all_goals cases heq
  rfl

theorem cwub_incomment_err {c : Nat} (hq : in_comment c = .error ())
    (r : List Nat) :
    consume_comment_whitespace_until_maybe_bracket .InComment (c :: r) = .error (c :: r) := by
  rw [consume_comment_whitespace_until_maybe_bracket]
  split
  all_goals rename_i heq
  all_goals rw [hq] at heq
  all_goals cases heq

theorem cwub_block_run (l : List Nat) :
    consume_comment_whitespace_until_maybe_bracket .InBlockComment l =
      preC (consume_block_comments l).1
        (consume_comment_whitespace_until_maybe_bracket
          (consume_block_comments l).2.2 (consume_block_comments l).2.1) := by
  cases l with
  | nil =>
    simp [consume_comment_whitespace_until_maybe_bracket, consume_block_comments, memchr,
      preC_nil]
  | cons c r => rw [consume_comment_whitespace_until_maybe_bracket]

theorem cwub_line_run (l : List Nat) :
    consume_comment_whitespace_until_maybe_bracket .InLineComment l =
      preC (consume_line_comments l).1
        (consume_comment_whitespace_until_maybe_bracket
          (consume_line_comments l).2.2 (consume_line_comments l).2.1) := by
  cases l with
  | nil =>
    simp [consume_comment_whitespace_until_maybe_bracket, consume_line_comments, memchr,
      preC_nil]
  | cons c r => rw [consume_comment_whitespace_until_maybe_bracket]

theorem cwub_block (c : Nat) (r : List Nat) :
    consume_comment_whitespace_until_maybe_bracket .InBlockComment (c :: r) =
      preC [32] (consume_comment_whitespace_until_maybe_bracket
        (if c = 42 then .MaybeCommentEnd else .InBlockComment) r) := by
  by_cases hc : c = 42
  · subst hc
    rw [cwub_block_run, consume_block_comments_cons_star]
    simp
  · rw [cwub_block_run, consume_block_comments_cons_ne hc]
    rw [if_neg hc, cwub_block_run]
    simp [preC_preC]

theorem cwub_mce (c : Nat) (r : List Nat) :
    consume_comment_whitespace_until_maybe_bracket .MaybeCommentEnd (c :: r) =
      preC [32] (consume_comment_whitespace_until_maybe_bracket (maybe_comment_end c).2 r) := by
  rw [consume_comment_whitespace_until_maybe_bracket]
  rfl

theorem cwub_line (c : Nat) (r : List Nat) :
    consume_comment_whitespace_until_maybe_bracket .InLineComment (c :: r) =
      if c = 10 then preC [10] (consume_comment_whitespace_until_maybe_bracket .Top r)
      else preC [32] (consume_comment_whitespace_until_maybe_bracket .InLineComment r) := by
  by_cases hc : c = 10
  · subst hc
    rw [cwub_line_run, consume_line_comments_cons_nl]
    simp
  · rw [cwub_line_run, consume_line_comments_cons_ne hc]
    rw [if_neg hc, cwub_line_run]
    simp [preC_preC]

theorem strip_buf_incomment_star (r : List Nat) :
    strip_buf .InComment (42 :: r) = pre [32] (strip_buf .InBlockComment r) :=
  @strip_buf_incomment_ok 42 (32, .InBlockComment) rfl r

theorem strip_buf_incomment_slash (r : List Nat) :
    strip_buf .InComment (47 :: r) = pre [32] (strip_buf .InLineComment r) :=
  @strip_buf_incomment_ok 47 (32, .InLineComment) rfl r

theorem strip_buf_incomment_bad {c : Nat} (h1 : c ≠ 42) (h2 : c ≠ 47) (r : List Nat) :
    strip_buf .InComment (c :: r) = .error (c :: r) :=
  strip_buf_incomment_err (by simp [in_comment, h1, h2]) r

theorem cwub_incomment_star (r : List Nat) :
    consume_comment_whitespace_until_maybe_bracket .InComment (42 :: r) =
      preC [32] (consume_comment_whitespace_until_maybe_bracket .InBlockComment r) :=
  @cwub_incomment_ok 42 (32, .InBlockComment) rfl r

theorem cwub_incomment_slash (r : List Nat) :
    consume_comment_whitespace_until_maybe_bracket .InComment (47 :: r) =
      preC [32] (consume_comment_whitespace_until_maybe_bracket .InLineComment r) :=
  @cwub_incomment_ok 47 (32, .InLineComment) rfl r

theorem cwub_incomment_bad {c : Nat} (h1 : c ≠ 42) (h2 : c ≠ 47) (r : List Nat) :
    consume_comment_whitespace_until_maybe_bracket .InComment (c :: r) = .error (c :: r) :=
  cwub_incomment_err (by simp [in_comment, h1, h2]) r

example : strip_buf .Top [47, 42, 10, 42, 47] = .ok ([32, 32, 32, 32, 32], .Top) := by
  simp [strip_buf, consume_comment_whitespace_until_maybe_bracket, consume_block_comments,
    consume_line_comments, top, in_string, in_comment, maybe_comment_end,
    is_ascii_whitespace, memchr, pre, preC]

theorem strip_buf_top_comma (rest : List Nat) :
    strip_buf .Top (44 :: rest) =
      match consume_comment_whitespace_until_maybe_bracket .Top rest with
      | .error buf => .error (44 :: buf)
      | .ok (isBracket, out, rem, s2) =>
          pre ((if isBracket then 32 else 44) :: out) (strip_buf s2 rem) := by
  rw [strip_buf]
  cases h : consume_comment_whitespace_until_maybe_bracket State.Top rest with
  | error buf => rfl
  | ok y =>
    obtain ⟨b, out, rem, s2⟩ := y
    rfl

example : strip_buf .Top [91, 49, 44, 44, 93] = .ok ([91, 49, 44, 44, 93], .Top) := by
  simp [strip_buf, strip_buf_top_comma, consume_comment_whitespace_until_maybe_bracket,
    consume_block_comments, consume_line_comments, top, in_string, in_comment,
    maybe_comment_end, is_ascii_whitespace, memchr, pre, preC]

example : strip_buf .Top [91, 49, 44, 93] = .ok ([91, 49, 32, 93], .Top) := by
  simp [strip_buf, strip_buf_top_comma, consume_comment_whitespace_until_maybe_bracket,
    consume_block_comments, consume_line_comments, top, in_string, in_comment,
    maybe_comment_end, is_ascii_whitespace, memchr, pre, preC]

/-! ## Length preservation -/

theorem consume_block_comments_length (l : List Nat) :
    (consume_block_comments l).1.length + (consume_block_comments l).2.1.length = l.length := by
  unfold consume_block_comments
  cases hm : memchr 42 l with
  | none => simp
  | some k =>
    have := memchr_some_pos hm
    simp
    omega

theorem consume_line_comments_length (l : List Nat) :
    (consume_line_comments l).1.length + (consume_line_comments l).2.1.length = l.length := by
  unfold consume_line_comments
  cases hm : memchr 10 l with
  | none => simp
  | some k =>
    have := memchr_some_pos hm
    simp
    omega

theorem cwub_length (s : State) (l : List Nat) :
    (match consume_comment_whitespace_until_maybe_bracket s l with
     | .ok (_, out, rem, _) => out.length + rem.length = l.length
     | .error buf => buf.length = l.length) := by
  induction s, l using consume_comment_whitespace_until_maybe_bracket.induct with
  | case1 s => simp [cwub_nil]
  | case2 c rest hws ih =>
    rw [cwub_top_ws hws]
    cases hx : consume_comment_whitespace_until_maybe_bracket (top c).2 rest with
    | ok y =>
      obtain ⟨b, out, rem, s2⟩ := y
      rw [hx] at ih
      simp [preC, hx] at ih ⊢
      omega
    | error buf =>
      rw [hx] at ih
      simp [preC, hx] at ih ⊢
      omega
  | case3 c rest hws =>
    rw [cwub_top_stop hws]
    simp
    omega
  | case4 c rest ih =>
    rw [cwub_instring]
    cases hx : consume_comment_whitespace_until_maybe_bracket (in_string c) rest with
    | ok y =>
      obtain ⟨b, out, rem, s2⟩ := y
      rw [hx] at ih
      simp [preC, hx] at ih ⊢
      omega
    | error buf =>
      rw [hx] at ih
      simp [preC, hx] at ih ⊢
      omega
  | case5 c rest ih =>
    rw [cwub_escape]
    cases hx : consume_comment_whitespace_until_maybe_bracket .InString rest with
    | ok y =>
      obtain ⟨b, out, rem, s2⟩ := y
      rw [hx] at ih
      simp [preC, hx] at ih ⊢
      omega
    | error buf =>
      rw [hx] at ih
      simp [preC, hx] at ih ⊢
      omega
  | case6 c rest a ha =>
    cases a
    rw [cwub_incomment_err ha]
  | case7 c rest q hq ih =>
    rw [cwub_incomment_ok hq]
    cases hx : consume_comment_whitespace_until_maybe_bracket q.2 rest with
    | ok y =>
      obtain ⟨b, out, rem, s2⟩ := y
      rw [hx] at ih
      simp [preC, hx] at ih ⊢
      omega
    | error buf =>
      rw [hx] at ih
      simp [preC, hx] at ih ⊢
      omega
  | case8 c rest out0 rem0 s0 hbc ih =>
    have hlen := consume_block_comments_length (c :: rest)
    rw [hbc] at hlen
    simp at hlen
    rw [cwub_block_run, hbc]
    cases hx : consume_comment_whitespace_until_maybe_bracket s0 rem0 with
    | ok y =>
      obtain ⟨b, out, rem, s2⟩ := y
      rw [hx] at ih
      simp [preC, hx] at ih ⊢
      omega
    | error buf =>
      rw [hx] at ih
      simp [preC, hx] at ih ⊢
      omega
  | case9 c rest ih =>
    rw [cwub_mce]
    cases hx : consume_comment_whitespace_until_maybe_bracket (maybe_comment_end c).2 rest with
    | ok y =>
      obtain ⟨b, out, rem, s2⟩ := y
      rw [hx] at ih
      simp [preC, hx] at ih ⊢
      omega
    | error buf =>
      rw [hx] at ih
      simp [preC, hx] at ih ⊢
      omega
  | case10 c rest out0 rem0 s0 hlc ih =>
    have hlen := consume_line_comments_length (c :: rest)
    rw [hlc] at hlen
    simp at hlen
    rw [cwub_line_run, hlc]
    cases hx : consume_comment_whitespace_until_maybe_bracket s0 rem0 with
    | ok y =>
      obtain ⟨b, out, rem, s2⟩ := y
      rw [hx] at ih
      simp [preC, hx] at ih ⊢
      omega
    | error buf =>
      rw [hx] at ih
      simp [preC, hx] at ih ⊢
      omega

theorem strip_buf_length (s : State) (l : List Nat) :
    (match strip_buf s l with
     | .ok (out, _) => out.length = l.length
     | .error buf => buf.length = l.length) := by
  induction s, l using strip_buf.induct with
  | case1 s => simp [strip_buf_nil]
  | case2 rest buf hcw =>
    have hlen := cwub_length .Top rest
    rw [hcw] at hlen
    simp at hlen
    rw [strip_buf_top_comma, hcw]
    simpa using hlen
  | case3 rest isBracket out rem s2 hcw ih =>
    have hlen := cwub_length .Top rest
    rw [hcw] at hlen
    simp at hlen
    rw [strip_buf_top_comma, hcw]
    cases hx : strip_buf s2 rem with
    | ok y =>
      obtain ⟨out2, s3⟩ := y
      rw [hx] at ih
      simp [pre, hx] at ih ⊢
      omega
    | error buf =>
      rw [hx] at ih
      simp [pre, hx] at ih ⊢
      omega
  | case4 c rest hc ih =>
    rw [strip_buf_top hc]
    cases hx : strip_buf (top c).2 rest with
    | ok y =>
      obtain ⟨out2, s3⟩ := y
      rw [hx] at ih
      simp [pre, hx] at ih ⊢
      omega
    | error buf =>
      rw [hx] at ih
      simp [pre, hx] at ih ⊢
      omega
  | case5 c rest ih =>
    rw [strip_buf_instring]
    cases hx : strip_buf (in_string c) rest with
    | ok y =>
      obtain ⟨out2, s3⟩ := y
      rw [hx] at ih
      simp [pre, hx] at ih ⊢
      omega
    | error buf =>
      rw [hx] at ih
      simp [pre, hx] at ih ⊢
      omega
  | case6 c rest ih =>
    rw [strip_buf_escape]
    cases hx : strip_buf .InString rest with
    | ok y =>
      obtain ⟨out2, s3⟩ := y
      rw [hx] at ih
      simp [pre, hx] at ih ⊢
      omega
    | error buf =>
      rw [hx] at ih
      simp [pre, hx] at ih ⊢
      omega
  | case7 c rest a ha =>
    cases a
    rw [strip_buf_incomment_err ha]
  | case8 c rest q hq ih =>
    rw [strip_buf_incomment_ok hq]
    cases hx : strip_buf q.2 rest with
    | ok y =>
      obtain ⟨out2, s3⟩ := y
      rw [hx] at ih
      simp [pre, hx] at ih ⊢
      omega
    | error buf =>
      rw [hx] at ih
      simp [pre, hx] at ih ⊢
      omega
  | case9 c rest out0 rem0 s0 hbc ih =>
    have hlen := consume_block_comments_length (c :: rest)
    rw [hbc] at hlen
    simp at hlen
    rw [strip_buf_block_run, hbc]
    cases hx : strip_buf s0 rem0 with
    | ok y =>
      obtain ⟨out2, s3⟩ := y
      rw [hx] at ih
      simp [pre, hx] at ih ⊢
      omega
    | error buf =>
      rw [hx] at ih
      simp [pre, hx] at ih ⊢
      omega
  | case10 c rest ih =>
    rw [strip_buf_mce]
    cases hx : strip_buf (maybe_comment_end c).2 rest with
    | ok y =>
      obtain ⟨out2, s3⟩ := y
      rw [hx] at ih
      simp [pre, hx] at ih ⊢
      omega
    | error buf =>
      rw [hx] at ih
      simp [pre, hx] at ih ⊢
      omega
  | case11 c rest out0 rem0 s0 hlc ih =>
    have hlen := consume_line_comments_length (c :: rest)
    rw [hlc] at hlen
    simp at hlen
    rw [strip_buf_line_run, hlc]
    cases hx : strip_buf s0 rem0 with
    | ok y =>
      obtain ⟨out2, s3⟩ := y
      rw [hx] at ih
      simp [pre, hx] at ih ⊢
      omega
    | error buf =>
      rw [hx] at ih
      simp [pre, hx] at ih ⊢
      omega

/-! ## String bodies pass through unchanged -/

/-- `isStringBodyFrom esc m`: scanning `m` from inside a string literal
(`esc` = currently after a backslash) stays inside the string and ends in
the plain `InString` state, i.e. `m` is the body of a properly quoted
(possibly escape-containing) string literal. -/
def isStringBodyFrom : Bool → List Nat → Bool
  | esc, [] => !esc
  | true, _ :: r => isStringBodyFrom false r
  | false, c :: r => if c = 34 then false else isStringBodyFrom (decide (c = 92)) r

theorem strip_buf_string_body {m : List Nat} : ∀ {esc : Bool},
    isStringBodyFrom esc m = true →
    ∀ w, strip_buf (cond esc .StringEscape .InString) (m ++ 34 :: w) =
      pre (m ++ [34]) (strip_buf .Top w) := by
  induction m with
  | nil =>
    intro esc h w
    cases esc with
    | false =>
      rw [show cond false State.StringEscape State.InString = State.InString from rfl]
      simp only [List.nil_append]
      rw [strip_buf_instring, show in_string 34 = State.Top from rfl]
    | true => simp [isStringBodyFrom] at h
  | cons c r ih =>
    intro esc h w
    cases esc with
    | true =>
      rw [isStringBodyFrom] at h
      rw [show cond true State.StringEscape State.InString = State.StringEscape from rfl]
      rw [List.cons_append, strip_buf_escape]
      have h2 := ih h w
      rw [show cond false State.StringEscape State.InString = State.InString from rfl] at h2
      rw [h2, pre_pre]
      simp
    | false =>
      rw [isStringBodyFrom] at h
      have hc : c ≠ 34 := by
        intro hc
        rw [if_pos hc] at h
        cases h
      rw [if_neg hc] at h
      rw [show cond false State.StringEscape State.InString = State.InString from rfl]
      rw [List.cons_append, strip_buf_instring]
      have hin : in_string c = cond (decide (c = 92)) State.StringEscape State.InString := by
        by_cases h92 : c = 92
        · simp [in_string, h92, hc]
        · simp [in_string, h92, hc]
      rw [hin, ih h w, pre_pre]
      simp

/-! ## Inputs without `/` never fail -/

theorem top_snd_ne_incomment {c : Nat} (hc : c ≠ 47) : (top c).2 ≠ .InComment := by
  unfold top
  split_ifs <;> simp_all

theorem in_string_ne_incomment (c : Nat) : in_string c ≠ .InComment := by
  unfold in_string
  split_ifs <;> simp

theorem in_comment_ok_state_ne {c : Nat} {q : Nat × State} (h : in_comment c = .ok q) :
    q.2 ≠ .InComment := by
  unfold in_comment at h
  split_ifs at h <;> cases h <;> simp

theorem maybe_comment_end_state_ne (c : Nat) : (maybe_comment_end c).2 ≠ .InComment := by
  unfold maybe_comment_end
  split_ifs <;> simp

theorem consume_block_comments_state_ne (l : List Nat) :
    (consume_block_comments l).2.2 ≠ .InComment := by
  unfold consume_block_comments
  cases memchr 42 l <;> simp

theorem consume_line_comments_state_ne (l : List Nat) :
    (consume_line_comments l).2.2 ≠ .InComment := by
  unfold consume_line_comments
  cases memchr 10 l <;> simp

theorem consume_block_comments_rem_subset (l : List Nat) :
    (consume_block_comments l).2.1 ⊆ l := by
  unfold consume_block_comments
  cases memchr 42 l with
  | none => simp
  | some k =>
    simp only
    exact List.drop_subset _ _

theorem consume_line_comments_rem_subset (l : List Nat) :
    (consume_line_comments l).2.1 ⊆ l := by
  unfold consume_line_comments
  cases memchr 10 l with
  | none => simp
  | some k =>
    simp only
    exact List.drop_subset _ _

theorem cwub_no_slash (s : State) (l : List Nat) :
    47 ∉ l → s ≠ .InComment →
    ∃ b out rem s2,
      consume_comment_whitespace_until_maybe_bracket s l = .ok (b, out, rem, s2) ∧
      47 ∉ rem ∧ s2 ≠ .InComment := by
  induction s, l using consume_comment_whitespace_until_maybe_bracket.induct with
  | case1 s =>
    intro h1 h2
    exact ⟨false, [], [], s, cwub_nil s, by simp, h2⟩
  | case2 c rest hws ih =>
    intro h1 h2
    have hc : c ≠ 47 := by
      intro hc
      subst hc
      exact h1 (List.mem_cons_self _ _)
    have h1r : 47 ∉ rest := fun hx => h1 (List.mem_cons_of_mem _ hx)
    obtain ⟨b, out, rem, s2, heq, hrem, hs2⟩ := ih h1r (top_snd_ne_incomment hc)
    refine ⟨b, (top c).1 :: out, rem, s2, ?_, hrem, hs2⟩
    rw [cwub_top_ws hws, heq]
    rfl
  | case3 c rest hws =>
    intro h1 h2
    have hc : c ≠ 47 := by
      intro hc
      subst hc
      exact h1 (List.mem_cons_self _ _)
    exact ⟨_, _, rest, (top c).2, cwub_top_stop hws rest,
      fun hx => h1 (List.mem_cons_of_mem _ hx), top_snd_ne_incomment hc⟩
  | case4 c rest ih =>
    intro h1 h2
    have h1r : 47 ∉ rest := fun hx => h1 (List.mem_cons_of_mem _ hx)
    obtain ⟨b, out, rem, s2, heq, hrem, hs2⟩ := ih h1r (in_string_ne_incomment c)
    refine ⟨b, c :: out, rem, s2, ?_, hrem, hs2⟩
    rw [cwub_instring, heq]
    rfl
  | case5 c rest ih =>
    intro h1 h2
    have h1r : 47 ∉ rest := fun hx => h1 (List.mem_cons_of_mem _ hx)
    obtain ⟨b, out, rem, s2, heq, hrem, hs2⟩ := ih h1r (by simp)
    refine ⟨b, c :: out, rem, s2, ?_, hrem, hs2⟩
    rw [cwub_escape, heq]
    rfl
  | case6 c rest a ha =>
    intro _ h2
    exact absurd rfl h2
  | case7 c rest q hq ih =>
    intro _ h2
    exact absurd rfl h2
  | case8 c rest out0 rem0 s0 hbc ih =>
    intro h1 h2
    have hsub : rem0 ⊆ c :: rest := by
      have h3 := consume_block_comments_rem_subset (c :: rest)
      rw [hbc] at h3
      exact h3
    have hs0 : s0 ≠ .InComment := by
      have h3 := consume_block_comments_state_ne (c :: rest)
      rw [hbc] at h3
      exact h3
    obtain ⟨b, out, rem, s2, heq, hrem, hs2⟩ := ih (fun hx => h1 (hsub hx)) hs0
    refine ⟨b, out0 ++ out, rem, s2, ?_, hrem, hs2⟩
    rw [cwub_block_run, hbc]
    dsimp only
    rw [heq]
    rfl
  | case9 c rest ih =>
    intro h1 h2
    have h1r : 47 ∉ rest := fun hx => h1 (List.mem_cons_of_mem _ hx)
    obtain ⟨b, out, rem, s2, heq, hrem, hs2⟩ := ih h1r (maybe_comment_end_state_ne c)
    refine ⟨b, 32 :: out, rem, s2, ?_, hrem, hs2⟩
    rw [cwub_mce, heq]
    rfl
  | case10 c rest out0 rem0 s0 hlc ih =>
    intro h1 h2
    have hsub : rem0 ⊆ c :: rest := by
      have h3 := consume_line_comments_rem_subset (c :: rest)
      rw [hlc] at h3
      exact h3
    have hs0 : s0 ≠ .InComment := by
      have h3 := consume_line_comments_state_ne (c :: rest)
      rw [hlc] at h3
      exact h3
    obtain ⟨b, out, rem, s2, heq, hrem, hs2⟩ := ih (fun hx => h1 (hsub hx)) hs0
    refine ⟨b, out0 ++ out, rem, s2, ?_, hrem, hs2⟩
    rw [cwub_line_run, hlc]
    dsimp only
    rw [heq]
    rfl

theorem strip_buf_no_slash (s : State) (l : List Nat) :
    47 ∉ l → s ≠ .InComment →
    ∃ out s2, strip_buf s l = .ok (out, s2) := by
  induction s, l using strip_buf.induct with
  | case1 s =>
    intro _ _
    exact ⟨[], s, strip_buf_nil s⟩
  | case2 rest buf hcw =>
    intro h1 _
    have h1r : 47 ∉ rest := fun hx => h1 (List.mem_cons_of_mem _ hx)
    obtain ⟨b, out, rem, s2, heq, _, _⟩ := cwub_no_slash .Top rest h1r (by simp)
    rw [heq] at hcw
    cases hcw
  | case3 rest isBracket out rem s2 hcw ih =>
    intro h1 _
    have h1r : 47 ∉ rest := fun hx => h1 (List.mem_cons_of_mem _ hx)
    obtain ⟨b2, out2, rem2, s22, heq, hrem, hs2⟩ := cwub_no_slash .Top rest h1r (by simp)
    rw [heq] at hcw
    cases hcw
    obtain ⟨o3, s3, h3⟩ := ih hrem hs2
    refine ⟨(if isBracket then 32 else 44) :: (out ++ o3), s3, ?_⟩
    rw [strip_buf_top_comma, heq]
    dsimp only
    rw [h3]
    rfl
  | case4 c rest hc ih =>
    intro h1 _
    have hc47 : c ≠ 47 := by
      intro h
      subst h
      exact h1 (List.mem_cons_self _ _)
    have h1r : 47 ∉ rest := fun hx => h1 (List.mem_cons_of_mem _ hx)
    obtain ⟨o, s2, h2⟩ := ih h1r (top_snd_ne_incomment hc47)
    refine ⟨(top c).1 :: o, s2, ?_⟩
    rw [strip_buf_top hc, h2]
    rfl
  | case5 c rest ih =>
    intro h1 _
    have h1r : 47 ∉ rest := fun hx => h1 (List.mem_cons_of_mem _ hx)
    obtain ⟨o, s2, h2⟩ := ih h1r (in_string_ne_incomment c)
    refine ⟨c :: o, s2, ?_⟩
    rw [strip_buf_instring, h2]
    rfl
  | case6 c rest ih =>
    intro h1 _
    have h1r : 47 ∉ rest := fun hx => h1 (List.mem_cons_of_mem _ hx)
    obtain ⟨o, s2, h2⟩ := ih h1r (by simp)
    refine ⟨c :: o, s2, ?_⟩
    rw [strip_buf_escape, h2]
    rfl
  | case7 c rest a ha =>
    intro _ h2
    exact absurd rfl h2
  | case8 c rest q hq ih =>
    intro _ h2
    exact absurd rfl h2
  | case9 c rest out0 rem0 s0 hbc ih =>
    intro h1 _
    have hsub : rem0 ⊆ c :: rest := by
      have h3 := consume_block_comments_rem_subset (c :: rest)
      rw [hbc] at h3
      exact h3
    have hs0 : s0 ≠ .InComment := by
      have h3 := consume_block_comments_state_ne (c :: rest)
      rw [hbc] at h3
      exact h3
    obtain ⟨o, s2, h2⟩ := ih (fun hx => h1 (hsub hx)) hs0
    refine ⟨out0 ++ o, s2, ?_⟩
    rw [strip_buf_block_run, hbc]
    dsimp only
    rw [h2]
    rfl
  | case10 c rest ih =>
    intro h1 _
    have h1r : 47 ∉ rest := fun hx => h1 (List.mem_cons_of_mem _ hx)
    obtain ⟨o, s2, h2⟩ := ih h1r (maybe_comment_end_state_ne c)
    refine ⟨32 :: o, s2, ?_⟩
    rw [strip_buf_mce, h2]
    rfl
  | case11 c rest out0 rem0 s0 hlc ih =>
    intro h1 _
    have hsub : rem0 ⊆ c :: rest := by
      have h3 := consume_line_comments_rem_subset (c :: rest)
      rw [hlc] at h3
      exact h3
    have hs0 : s0 ≠ .InComment := by
      have h3 := consume_line_comments_state_ne (c :: rest)
      rw [hlc] at h3
      exact h3
    obtain ⟨o, s2, h2⟩ := ih (fun hx => h1 (hsub hx)) hs0
    refine ⟨out0 ++ o, s2, ?_⟩
    rw [strip_buf_line_run, hlc]
    dsimp only
    rw [h2]
    rfl

/-! ## Idempotence machinery -/

/-- The state in which the second pass scans the bytes that the first pass
produced while in state `s`: string states survive (string bytes are copied
verbatim), every other state's bytes are whitespace or inert for the second
pass, which therefore scans them from `Top`. -/
def phi : State → State
  | .InString => .InString
  | .StringEscape => .StringEscape
  | _ => .Top

theorem phi_in_string (c : Nat) : phi (in_string c) = in_string c := by
  unfold in_string
  split_ifs <;> rfl

theorem phi_of_not_string {s : State} (h1 : s ≠ .InString) (h2 : s ≠ .StringEscape) :
    phi s = .Top := by
  cases s <;> simp_all [phi]

theorem ws_top_eq {c : Nat} (h : is_ascii_whitespace c = true) :
    top c = (c, .Top) ∧ c ≠ 44 := by
  simp [is_ascii_whitespace] at h
  rcases h with (((rfl | rfl) | rfl) | rfl) | rfl <;> exact ⟨rfl, by decide⟩

theorem top_ws_snd {c : Nat} (hws : is_ascii_whitespace (top c).1 = true) :
    (top c).2 ≠ .InString ∧ (top c).2 ≠ .StringEscape := by
  unfold top at hws ⊢
  split_ifs at hws ⊢ <;> simp_all [is_ascii_whitespace]

theorem top_stop_fix {c : Nat} (hws : ¬ is_ascii_whitespace (top c).1 = true) :
    top (top c).1 = ((top c).1, (top c).2) ∧ ((top c).2 = .Top ∨ (top c).2 = .InString) := by
  by_cases h34 : c = 34
  · subst h34
    exact ⟨rfl, .inr rfl⟩
  · by_cases h47 : c = 47
    · exact absurd (by simp [top, h34, h47, is_ascii_whitespace]) hws
    · by_cases h35 : c = 35
      · exact absurd (by simp [top, h34, h47, h35, is_ascii_whitespace]) hws
      · have ht : top c = (c, .Top) := by simp [top, h34, h47, h35]
        rw [ht]
        exact ⟨ht, .inl rfl⟩

theorem in_comment_ok_inv {c : Nat} {q : Nat × State} (h : in_comment c = .ok q) :
    q.1 = 32 ∧ (q.2 = .InBlockComment ∨ q.2 = .InLineComment) := by
  unfold in_comment at h
  split_ifs at h <;> cases h
  · exact ⟨rfl, .inl rfl⟩
  · exact ⟨rfl, .inr rfl⟩

theorem maybe_comment_end_fst (c : Nat) : (maybe_comment_end c).1 = 32 := rfl

theorem maybe_comment_end_cases (c : Nat) :
    (maybe_comment_end c).2 = .Top ∨ (maybe_comment_end c).2 = .MaybeCommentEnd ∨
      (maybe_comment_end c).2 = .InBlockComment := by
  unfold maybe_comment_end
  split_ifs <;> simp

theorem consume_block_comments_out_spaces (l : List Nat) :
    ∀ x ∈ (consume_block_comments l).1, x = 32 := by
  unfold consume_block_comments
  cases memchr 42 l with
  | none =>
    intro x hx
    simp at hx
    exact hx.2
  | some k =>
    intro x hx
    simp at hx
    exact hx

theorem consume_block_comments_state_cases (l : List Nat) :
    (consume_block_comments l).2.2 = .MaybeCommentEnd ∨
      (consume_block_comments l).2.2 = .InBlockComment := by
  unfold consume_block_comments
  cases memchr 42 l <;> simp

theorem consume_line_comments_out_ws (l : List Nat) :
    ∀ x ∈ (consume_line_comments l).1, is_ascii_whitespace x = true := by
  unfold consume_line_comments
  cases memchr 10 l with
  | none =>
    intro x hx
    simp at hx
    rw [hx.2]
    rfl
  | some k =>
    intro x hx
    simp at hx
    rcases hx with ⟨_, rfl⟩ | rfl <;> rfl

theorem consume_line_comments_state_cases (l : List Nat) :
    (consume_line_comments l).2.2 = .Top ∨
      (consume_line_comments l).2.2 = .InLineComment := by
  unfold consume_line_comments
  cases memchr 10 l <;> simp

theorem strip_buf_ws_walk {wsp : List Nat} (h : ∀ x ∈ wsp, is_ascii_whitespace x = true)
    (w : List Nat) :
    strip_buf .Top (wsp ++ w) = pre wsp (strip_buf .Top w) := by
  induction wsp with
  | nil => simp [pre_nil]
  | cons c r ih =>
    obtain ⟨ht, h44⟩ := ws_top_eq (h c (List.mem_cons_self _ _))
    rw [List.cons_append, strip_buf_top h44, ht]
    dsimp only
    rw [ih (fun x hx => h x (List.mem_cons_of_mem _ hx)), pre_pre]
    rfl

theorem cwub_ws_walk {wsp : List Nat} (h : ∀ x ∈ wsp, is_ascii_whitespace x = true)
    (w : List Nat) :
    consume_comment_whitespace_until_maybe_bracket .Top (wsp ++ w) =
      preC wsp (consume_comment_whitespace_until_maybe_bracket .Top w) := by
  induction wsp with
  | nil => simp [preC_nil]
  | cons c r ih =>
    have hc := h c (List.mem_cons_self _ _)
    obtain ⟨ht, _⟩ := ws_top_eq hc
    have hws : is_ascii_whitespace (top c).1 = true := by rw [ht]; exact hc
    rw [List.cons_append, cwub_top_ws hws, ht]
    dsimp only
    rw [ih (fun x hx => h x (List.mem_cons_of_mem _ hx)), preC_preC]
    rfl

theorem cwub_shape (s : State) (l : List Nat) :
    s ≠ .InString → s ≠ .StringEscape →
    ∀ b out rem s2,
      consume_comment_whitespace_until_maybe_bracket s l = .ok (b, out, rem, s2) →
      ((∃ wsp stop, out = wsp ++ [stop] ∧ (∀ x ∈ wsp, is_ascii_whitespace x = true) ∧
          is_ascii_whitespace stop = false ∧ top stop = (stop, s2) ∧
          b = decide (stop = 125 ∨ stop = 93) ∧ (s2 = .Top ∨ s2 = .InString)) ∨
       ((∀ x ∈ out, is_ascii_whitespace x = true) ∧ rem = [] ∧ b = false ∧
          s2 ≠ .InString ∧ s2 ≠ .StringEscape)) := by
  induction s, l using consume_comment_whitespace_until_maybe_bracket.induct with
  | case1 s =>
    intro h1 h2 b out rem s2 heq
    rw [cwub_nil] at heq
    cases heq
    exact .inr ⟨by simp, rfl, rfl, h1, h2⟩
  | case2 c rest hws ih =>
    intro _ _ b out rem s2 heq
    rw [cwub_top_ws hws] at heq
    obtain ⟨out0, hx, rfl⟩ := preC_ok_inv heq
    obtain ⟨hla1, hla2⟩ := top_ws_snd hws
    rcases ih hla1 hla2 b out0 rem s2 hx with
      ⟨wsp, stop, rfl, hwsp, hstop, htop, hb, hs2⟩ | ⟨hall, hrem, hb, h5, h6⟩
    · refine .inl ⟨(top c).1 :: wsp, stop, by simp, ?_, hstop, htop, hb, hs2⟩
      intro x hx2
      rcases List.mem_cons.1 hx2 with rfl | hx2
      · exact hws
      · exact hwsp x hx2
    · refine .inr ⟨?_, hrem, hb, h5, h6⟩
      intro x hx2
      rcases List.mem_append.1 hx2 with hx2 | hx2
      · rw [List.mem_singleton.1 hx2]
        exact hws
      · exact hall x hx2
  | case3 c rest hws =>
    intro _ _ b out rem s2 heq
    rw [cwub_top_stop hws] at heq
    cases heq
    obtain ⟨hfix, hcase⟩ := top_stop_fix hws
    exact .inl ⟨[], (top c).1, by simp, by simp, by simpa using hws, hfix, rfl, hcase⟩
  | case4 c rest ih =>
    intro h1 _
    exact absurd rfl h1
  | case5 c rest ih =>
    intro _ h2
    exact absurd rfl h2
  | case6 c rest a ha =>
    intro _ _ b out rem s2 heq
    cases a
    rw [cwub_incomment_err ha] at heq
    cases heq
  | case7 c rest q hq ih =>
    intro _ _ b out rem s2 heq
    obtain ⟨hq1, hq2⟩ := in_comment_ok_inv hq
    rw [cwub_incomment_ok hq] at heq
    obtain ⟨out0, hx, rfl⟩ := preC_ok_inv heq
    have hla1 : q.2 ≠ State.InString := by rcases hq2 with h | h <;> simp [h]
    have hla2 : q.2 ≠ State.StringEscape := by rcases hq2 with h | h <;> simp [h]
    have hwq : is_ascii_whitespace q.1 = true := by rw [hq1]; rfl
    rcases ih hla1 hla2 b out0 rem s2 hx with
      ⟨wsp, stop, rfl, hwsp, hstop, htop, hb, hs2⟩ | ⟨hall, hrem, hb, h5, h6⟩
    · refine .inl ⟨q.1 :: wsp, stop, by simp, ?_, hstop, htop, hb, hs2⟩
      intro x hx2
      rcases List.mem_cons.1 hx2 with rfl | hx2
      · exact hwq
      · exact hwsp x hx2
    · refine .inr ⟨?_, hrem, hb, h5, h6⟩
      intro x hx2
      rcases List.mem_append.1 hx2 with hx2 | hx2
      · rw [List.mem_singleton.1 hx2]
        exact hwq
      · exact hall x hx2
  | case8 c rest out0 rem0 s0 hbc ih =>
    intro _ _ b out rem s2 heq
    rw [cwub_block_run, hbc] at heq
    dsimp only at heq
    obtain ⟨out1, hx, rfl⟩ := preC_ok_inv heq
    have hws0 : ∀ x ∈ out0, is_ascii_whitespace x = true := by
      intro x hx2
      have h3 := consume_block_comments_out_spaces (c :: rest)
      rw [hbc] at h3
      rw [h3 x hx2]
      rfl
    have hst := consume_block_comments_state_cases (c :: rest)
    rw [hbc] at hst
    dsimp only at hst
    have hla1 : s0 ≠ State.InString := by rcases hst with rfl | rfl <;> simp
    have hla2 : s0 ≠ State.StringEscape := by rcases hst with rfl | rfl <;> simp
    rcases ih hla1 hla2 b out1 rem s2 hx with
      ⟨wsp, stop, rfl, hwsp, hstop, htop, hb, hs2⟩ | ⟨hall, hrem, hb, h5, h6⟩
    · refine .inl ⟨out0 ++ wsp, stop, by simp, ?_, hstop, htop, hb, hs2⟩
      intro x hx2
      rcases List.mem_append.1 hx2 with hx2 | hx2
      · exact hws0 x hx2
      · exact hwsp x hx2
    · refine .inr ⟨?_, hrem, hb, h5, h6⟩
      intro x hx2
      rcases List.mem_append.1 hx2 with hx2 | hx2
      · exact hws0 x hx2
      · exact hall x hx2
  | case9 c rest ih =>
    intro _ _ b out rem s2 heq
    rw [cwub_mce] at heq
    obtain ⟨out0, hx, rfl⟩ := preC_ok_inv heq
    have hst := maybe_comment_end_cases c
    have hla1 : (maybe_comment_end c).2 ≠ State.InString := by
      rcases hst with h | h | h <;> simp [h]
    have hla2 : (maybe_comment_end c).2 ≠ State.StringEscape := by
      rcases hst with h | h | h <;> simp [h]
    rcases ih hla1 hla2 b out0 rem s2 hx with
      ⟨wsp, stop, rfl, hwsp, hstop, htop, hb, hs2⟩ | ⟨hall, hrem, hb, h5, h6⟩
    · refine .inl ⟨32 :: wsp, stop, by simp, ?_, hstop, htop, hb, hs2⟩
      intro x hx2
      rcases List.mem_cons.1 hx2 with rfl | hx2
      · rfl
      · exact hwsp x hx2
    · refine .inr ⟨?_, hrem, hb, h5, h6⟩
      intro x hx2
      rcases List.mem_append.1 hx2 with hx2 | hx2
      · rw [List.mem_singleton.1 hx2]
        rfl
      · exact hall x hx2
  | case10 c rest out0 rem0 s0 hlc ih =>
    intro _ _ b out rem s2 heq
    rw [cwub_line_run, hlc] at heq
    dsimp only at heq
    obtain ⟨out1, hx, rfl⟩ := preC_ok_inv heq
    have hws0 : ∀ x ∈ out0, is_ascii_whitespace x = true := by
      intro x hx2
      have h3 := consume_line_comments_out_ws (c :: rest)
      rw [hlc] at h3
      exact h3 x hx2
    have hst := consume_line_comments_state_cases (c :: rest)
    rw [hlc] at hst
    dsimp only at hst
    have hla1 : s0 ≠ State.InString := by rcases hst with rfl | rfl <;> simp
    have hla2 : s0 ≠ State.StringEscape := by rcases hst with rfl | rfl <;> simp
    rcases ih hla1 hla2 b out1 rem s2 hx with
      ⟨wsp, stop, rfl, hwsp, hstop, htop, hb, hs2⟩ | ⟨hall, hrem, hb, h5, h6⟩
    · refine .inl ⟨out0 ++ wsp, stop, by simp, ?_, hstop, htop, hb, hs2⟩
      intro x hx2
      rcases List.mem_append.1 hx2 with hx2 | hx2
      · exact hws0 x hx2
      · exact hwsp x hx2
    · refine .inr ⟨?_, hrem, hb, h5, h6⟩
      intro x hx2
      rcases List.mem_append.1 hx2 with hx2 | hx2
      · exact hws0 x hx2
      · exact hall x hx2

theorem pre_ok_eq (a out : List Nat) (s : State) : pre a (.ok (out, s)) = .ok (a ++ out, s) := rfl

theorem preC_ok_eq (a : List Nat) (b : Bool) (out rem : List Nat) (s : State) :
    preC a (.ok (b, out, rem, s)) = .ok (b, a ++ out, rem, s) := rfl

theorem strip_buf_idem_sim (s : State) (l : List Nat) :
    ∀ out sf, strip_buf s l = .ok (out, sf) →
      strip_buf (phi s) out = .ok (out, phi sf) := by
  induction s, l using strip_buf.induct with
  | case1 s =>
    intro out sf h
    rw [strip_buf_nil] at h
    cases h
    exact strip_buf_nil _
  | case2 rest buf hcw =>
    intro out sf h
    rw [strip_buf_top_comma, hcw] at h
    cases h
  | case3 rest isBracket out0 rem s2cw hcw ih =>
    intro out sf h
    rw [strip_buf_top_comma, hcw] at h
    dsimp only at h
    obtain ⟨cont, hx, rfl⟩ := pre_ok_inv h
    have ihh := ih cont sf hx
    rcases cwub_shape .Top rest (by simp) (by simp) isBracket out0 rem s2cw hcw with
      ⟨wsp, stop, rfl, hwsp, hstop, htop, hb, hs2⟩ | ⟨hall, hrem, hbf, h5, h6⟩
    · by_cases hbr : isBracket = true
      · have hstop2 : stop = 125 ∨ stop = 93 := by
          rw [hbr] at hb
          exact of_decide_eq_true hb.symm
        have hs2top : s2cw = State.Top := by
          rcases hstop2 with rfl | rfl <;>
            · have h2 := htop
              simp [top] at h2
              exact h2.symm
        subst hs2top
        rw [hbr]
        have hstop44 : stop ≠ 44 := by rcases hstop2 with rfl | rfl <;> decide
        show strip_buf State.Top (32 :: ((wsp ++ [stop]) ++ cont)) = _
        rw [strip_buf_top (by decide), show top 32 = (32, State.Top) from rfl]
        dsimp only
        rw [List.append_assoc, List.singleton_append, strip_buf_ws_walk hwsp,
          strip_buf_top hstop44, htop]
        dsimp only
        rw [show phi State.Top = State.Top from rfl] at ihh
        rw [ihh, pre_ok_eq, pre_ok_eq, pre_ok_eq]
        simp
      · have hbf : isBracket = false := by simpa using hbr
        subst hbf
        show strip_buf State.Top (44 :: ((wsp ++ [stop]) ++ cont)) = _
        rw [strip_buf_top_comma]
        rw [List.append_assoc, List.singleton_append, cwub_ws_walk hwsp,
          cwub_top_stop (by rw [htop]; simpa using hstop), htop]
        dsimp only
        rw [← hb, preC_ok_eq]
        dsimp only
        have hphi : phi s2cw = s2cw := by rcases hs2 with rfl | rfl <;> rfl
        rw [hphi] at ihh
        rw [ihh, pre_ok_eq]
    · -- lookahead ran to end of input: the comma survives, everything after is whitespace
      subst hrem
      rw [strip_buf_nil] at hx
      cases hx
      subst hbf
      show strip_buf State.Top (44 :: (out0 ++ [])) = _
      rw [strip_buf_top_comma, cwub_ws_walk hall, cwub_nil, preC_ok_eq]
      dsimp only
      rw [strip_buf_nil, pre_ok_eq]
      rw [phi_of_not_string h5 h6]
      simp
  | case4 c rest hc ih =>
    intro out sf h
    rw [strip_buf_top hc] at h
    obtain ⟨out1, hx, rfl⟩ := pre_ok_inv h
    have ihh := ih out1 sf hx
    show strip_buf State.Top ((top c).1 :: out1) = .ok ((top c).1 :: out1, phi sf)
    by_cases h34 : c = 34
    · subst h34
      rw [show top 34 = (34, State.InString) from rfl] at ihh ⊢
      dsimp only
      rw [show phi State.InString = State.InString from rfl] at ihh
      rw [strip_buf_top (by decide), show top 34 = (34, State.InString) from rfl]
      dsimp only
      rw [ihh, pre_ok_eq]
      rfl
    · by_cases h47 : c = 47
      · subst h47
        rw [show top 47 = (32, State.InComment) from rfl] at ihh ⊢
        dsimp only
        rw [show phi State.InComment = State.Top from rfl] at ihh
        rw [strip_buf_top (by decide), show top 32 = (32, State.Top) from rfl]
        dsimp only
        rw [ihh, pre_ok_eq]
        rfl
      · by_cases h35 : c = 35
        · subst h35
          rw [show top 35 = (32, State.InLineComment) from rfl] at ihh ⊢
          dsimp only
          rw [show phi State.InLineComment = State.Top from rfl] at ihh
          rw [strip_buf_top (by decide), show top 32 = (32, State.Top) from rfl]
          dsimp only
          rw [ihh, pre_ok_eq]
          rfl
        · have ht : top c = (c, State.Top) := by simp [top, h34, h47, h35]
          rw [ht] at ihh ⊢
          dsimp only
          rw [show phi State.Top = State.Top from rfl] at ihh
          rw [strip_buf_top hc, ht]
          dsimp only
          rw [ihh, pre_ok_eq]
          rfl
  | case5 c rest ih =>
    intro out sf h
    rw [strip_buf_instring] at h
    obtain ⟨out1, hx, rfl⟩ := pre_ok_inv h
    have ihh := ih out1 sf hx
    rw [phi_in_string] at ihh
    show strip_buf State.InString (c :: out1) = _
    rw [strip_buf_instring, ihh, pre_ok_eq]
  | case6 c rest ih =>
    intro out sf h
    rw [strip_buf_escape] at h
    obtain ⟨out1, hx, rfl⟩ := pre_ok_inv h
    have ihh := ih out1 sf hx
    rw [show phi State.InString = State.InString from rfl] at ihh
    show strip_buf State.StringEscape (c :: out1) = _
    rw [strip_buf_escape, ihh, pre_ok_eq]
  | case7 c rest a ha =>
    intro out sf h
    cases a
    rw [strip_buf_incomment_err ha] at h
    cases h
  | case8 c rest q hq ih =>
    intro out sf h
    rw [strip_buf_incomment_ok hq] at h
    obtain ⟨out1, hx, rfl⟩ := pre_ok_inv h
    have ihh := ih out1 sf hx
    obtain ⟨hq1, hq2⟩ := in_comment_ok_inv hq
    have hphi : phi q.2 = State.Top := by rcases hq2 with h2 | h2 <;> rw [h2] <;> rfl
    rw [hphi] at ihh
    rw [hq1]
    show strip_buf State.Top (32 :: out1) = _
    rw [strip_buf_top (by decide), show top 32 = (32, State.Top) from rfl]
    dsimp only
    rw [ihh, pre_ok_eq]
  | case9 c rest out0 rem0 s0 hbc ih =>
    intro out sf h
    rw [strip_buf_block_run, hbc] at h
    dsimp only at h
    obtain ⟨out1, hx, rfl⟩ := pre_ok_inv h
    have ihh := ih out1 sf hx
    have hst := consume_block_comments_state_cases (c :: rest)
    rw [hbc] at hst
    dsimp only at hst
    have hphi : phi s0 = State.Top := by rcases hst with rfl | rfl <;> rfl
    rw [hphi] at ihh
    have hws0 : ∀ x ∈ out0, is_ascii_whitespace x = true := by
      intro x hx2
      have h3 := consume_block_comments_out_spaces (c :: rest)
      rw [hbc] at h3
      rw [h3 x hx2]
      rfl
    show strip_buf State.Top (out0 ++ out1) = _
    rw [strip_buf_ws_walk hws0, ihh, pre_ok_eq]
  | case10 c rest ih =>
    intro out sf h
    rw [strip_buf_mce] at h
    obtain ⟨out1, hx, rfl⟩ := pre_ok_inv h
    have ihh := ih out1 sf hx
    have hphi : phi (maybe_comment_end c).2 = State.Top := by
      rcases maybe_comment_end_cases c with h2 | h2 | h2 <;> rw [h2] <;> rfl
    rw [hphi] at ihh
    show strip_buf State.Top (32 :: out1) = _
    rw [strip_buf_top (by decide), show top 32 = (32, State.Top) from rfl]
    dsimp only
    rw [ihh, pre_ok_eq]
  | case11 c rest out0 rem0 s0 hlc ih =>
    intro out sf h
    rw [strip_buf_line_run, hlc] at h
    dsimp only at h
    obtain ⟨out1, hx, rfl⟩ := pre_ok_inv h
    have ihh := ih out1 sf hx
    have hst := consume_line_comments_state_cases (c :: rest)
    rw [hlc] at hst
    dsimp only at hst
    have hphi : phi s0 = State.Top := by rcases hst with rfl | rfl <;> rfl
    rw [hphi] at ihh
    have hws0 : ∀ x ∈ out0, is_ascii_whitespace x = true := by
      intro x hx2
      have h3 := consume_line_comments_out_ws (c :: rest)
      rw [hlc] at h3
      exact h3 x hx2
    show strip_buf State.Top (out0 ++ out1) = _
    rw [strip_buf_ws_walk hws0, ihh, pre_ok_eq]

/-! ## UTF-8 preservation machinery

The scanner mutates bytes only by overwriting them with space, and every byte
it treats specially (`"`, `\\`, `/`, `#`, `*`, `\n`, `,`, `}`, `]`, whitespace)
is ASCII, so a multi-byte UTF-8 sequence (all bytes ≥ 0x80) is always kept or
blanked as a whole.  UTF-8 validity is phrased via the standard scalar-value
byte-sequence grammar. -/

/-- UTF-8 continuation byte: `0x80..0xBF`. -/
def isCont (c : Nat) : Bool := decide (128 ≤ c) && decide (c < 192)

/-- Allowed second byte after a three-byte lead (excludes overlong forms and
surrogates). -/
def utf8Cont3 (c c1 : Nat) : Bool :=
  if c = 224 then decide (160 ≤ c1) && decide (c1 ≤ 191)
  else if c = 237 then decide (128 ≤ c1) && decide (c1 ≤ 159)
  else isCont c1

/-- Allowed second byte after a four-byte lead (excludes overlong forms and
values beyond U+10FFFF). -/
def utf8Cont4 (c c1 : Nat) : Bool :=
  if c = 240 then decide (144 ≤ c1) && decide (c1 ≤ 191)
  else if c = 244 then decide (128 ≤ c1) && decide (c1 ≤ 143)
  else isCont c1

/-- `g` encodes exactly one Unicode scalar value. -/
def isUtf8Group : List Nat → Bool
  | [c] => decide (c < 128)
  | [c, c1] => decide (194 ≤ c) && decide (c ≤ 223) && isCont c1
  | [c, c1, c2] => decide (224 ≤ c) && decide (c ≤ 239) && utf8Cont3 c c1 && isCont c2
  | [c, c1, c2, c3] =>
      decide (240 ≤ c) && decide (c ≤ 244) && utf8Cont4 c c1 && isCont c2 && isCont c3
  | _ => false

mutual

/-- The byte sequence `l` is valid UTF-8 (standard left-to-right decoder;
`utf8Rest1/2/3` consume the continuation bytes of a 2/3/4-byte sequence). -/
def utf8Valid : List Nat → Bool
  | [] => true
  | c :: r =>
    if c < 128 then utf8Valid r
    else if 194 ≤ c ∧ c ≤ 223 then utf8Rest1 r
    else if 224 ≤ c ∧ c ≤ 239 then utf8Rest2 c r
    else if 240 ≤ c ∧ c ≤ 244 then utf8Rest3 c r
    else false
termination_by l => l.length

def utf8Rest1 : List Nat → Bool
  | [] => false
  | c1 :: r2 => isCont c1 && utf8Valid r2
termination_by l => l.length

def utf8Rest2 (c : Nat) : List Nat → Bool
  | [] => false
  | [_] => false
  | c1 :: c2 :: r2 => utf8Cont3 c c1 && isCont c2 && utf8Valid r2
termination_by l => l.length

def utf8Rest3 (c : Nat) : List Nat → Bool
  | [] => false
  | [_] => false
  | [_, _] => false
  | c1 :: c2 :: c3 :: r2 => utf8Cont4 c c1 && isCont c2 && isCont c3 && utf8Valid r2
termination_by l => l.length

end

/-- Every group of the decomposition is a valid scalar encoding. -/
def GroupsValid (gs : List (List Nat)) : Prop := ∀ g ∈ gs, isUtf8Group g = true

theorem isCont_ge {c : Nat} (h : isCont c = true) : 128 ≤ c := by
  simp [isCont] at h
  exact h.1

theorem utf8Cont3_ge {c c1 : Nat} (h : utf8Cont3 c c1 = true) : 128 ≤ c1 := by
  unfold utf8Cont3 at h
  split_ifs at h <;> simp_all [isCont] <;> omega

theorem utf8Cont4_ge {c c1 : Nat} (h : utf8Cont4 c c1 = true) : 128 ≤ c1 := by
  unfold utf8Cont4 at h
  split_ifs at h <;> simp_all [isCont] <;> omega

theorem isUtf8Group_shape {g : List Nat} (h : isUtf8Group g = true) :
    (∃ c, g = [c] ∧ c < 128) ∨
    (∃ c m, g = c :: m ∧ m ≠ [] ∧ ∀ x ∈ g, 128 ≤ x) := by
  match g with
  | [c] =>
    left
    refine ⟨c, rfl, ?_⟩
    simpa [isUtf8Group] using h
  | [c, c1] =>
    right
    simp [isUtf8Group] at h
    obtain ⟨⟨h1, _⟩, h3⟩ := h
    refine ⟨c, [c1], rfl, by simp, ?_⟩
    intro x hx
    simp at hx
    rcases hx with rfl | rfl
    · omega
    · exact isCont_ge h3
  | [c, c1, c2] =>
    right
    simp [isUtf8Group] at h
    obtain ⟨⟨⟨h1, _⟩, h3⟩, h4⟩ := h
    refine ⟨c, [c1, c2], rfl, by simp, ?_⟩
    intro x hx
    simp at hx
    rcases hx with rfl | rfl | rfl
    · omega
    · exact utf8Cont3_ge h3
    · exact isCont_ge h4
  | [c, c1, c2, c3] =>
    right
    simp [isUtf8Group] at h
    obtain ⟨⟨⟨⟨h1, _⟩, h3⟩, h4⟩, h5⟩ := h
    refine ⟨c, [c1, c2, c3], rfl, by simp, ?_⟩
    intro x hx
    simp at hx
    rcases hx with rfl | rfl | rfl | rfl
    · omega
    · exact utf8Cont4_ge h3
    · exact isCont_ge h4
    · exact isCont_ge h5
  | [] => simp [isUtf8Group] at h
  | c :: c1 :: c2 :: c3 :: c4 :: r => simp [isUtf8Group] at h

theorem high_top {c : Nat} (hc : 128 ≤ c) : top c = (c, .Top) := by
  simp [top, show c ≠ 34 by omega, show c ≠ 47 by omega, show c ≠ 35 by omega]

theorem high_not_ws {c : Nat} (hc : 128 ≤ c) : is_ascii_whitespace c = false := by
  simp [is_ascii_whitespace]
  omega

theorem high_in_string {c : Nat} (hc : 128 ≤ c) : in_string c = .InString := by
  simp [in_string, show c ≠ 34 by omega, show c ≠ 92 by omega]

theorem high_in_comment {c : Nat} (hc : 128 ≤ c) : in_comment c = .error () := by
  simp [in_comment, show c ≠ 42 by omega, show c ≠ 47 by omega]

theorem high_mce {c : Nat} (hc : 128 ≤ c) :
    (maybe_comment_end c).2 = .InBlockComment := by
  simp [maybe_comment_end, show c ≠ 47 by omega, show c ≠ 42 by omega]

theorem strip_buf_high_top {m : List Nat} (h : ∀ x ∈ m, 128 ≤ x) (w : List Nat) :
    strip_buf .Top (m ++ w) = pre m (strip_buf .Top w) := by
  induction m with
  | nil => simp [pre_nil]
  | cons c r ih =>
    have hc := h c (List.mem_cons_self _ _)
    rw [List.cons_append, strip_buf_top (show c ≠ 44 by omega), high_top hc]
    dsimp only
    rw [ih (fun x hx => h x (List.mem_cons_of_mem _ hx)), pre_pre]
    rfl

theorem strip_buf_high_instring {m : List Nat} (h : ∀ x ∈ m, 128 ≤ x) (w : List Nat) :
    strip_buf .InString (m ++ w) = pre m (strip_buf .InString w) := by
  induction m with
  | nil => simp [pre_nil]
  | cons c r ih =>
    have hc := h c (List.mem_cons_self _ _)
    rw [List.cons_append, strip_buf_instring, high_in_string hc]
    rw [ih (fun x hx => h x (List.mem_cons_of_mem _ hx)), pre_pre]
    rfl

theorem strip_buf_high_block {m : List Nat} (h : ∀ x ∈ m, 128 ≤ x) (w : List Nat) :
    strip_buf .InBlockComment (m ++ w) =
      pre (List.replicate m.length 32) (strip_buf .InBlockComment w) := by
  induction m with
  | nil => simp [pre_nil]
  | cons c r ih =>
    have hc := h c (List.mem_cons_self _ _)
    rw [List.cons_append, strip_buf_block, if_neg (show ¬ c = 42 by omega)]
    rw [ih (fun x hx => h x (List.mem_cons_of_mem _ hx)), pre_pre]
    rw [List.length_cons, List.replicate_succ]
    rfl

theorem strip_buf_high_line {m : List Nat} (h : ∀ x ∈ m, 128 ≤ x) (w : List Nat) :
    strip_buf .InLineComment (m ++ w) =
      pre (List.replicate m.length 32) (strip_buf .InLineComment w) := by
  induction m with
  | nil => simp [pre_nil]
  | cons c r ih =>
    have hc := h c (List.mem_cons_self _ _)
    rw [List.cons_append, strip_buf_line, if_neg (show ¬ c = 10 by omega)]
    rw [ih (fun x hx => h x (List.mem_cons_of_mem _ hx)), pre_pre]
    rw [List.length_cons, List.replicate_succ]
    rfl

theorem cwub_high_block {m : List Nat} (h : ∀ x ∈ m, 128 ≤ x) (w : List Nat) :
    consume_comment_whitespace_until_maybe_bracket .InBlockComment (m ++ w) =
      preC (List.replicate m.length 32)
        (consume_comment_whitespace_until_maybe_bracket .InBlockComment w) := by
  induction m with
  | nil => simp [preC_nil]
  | cons c r ih =>
    have hc := h c (List.mem_cons_self _ _)
    rw [List.cons_append, cwub_block, if_neg (show ¬ c = 42 by omega)]
    rw [ih (fun x hx => h x (List.mem_cons_of_mem _ hx)), preC_preC]
    rw [List.length_cons, List.replicate_succ]
    rfl

theorem cwub_high_line {m : List Nat} (h : ∀ x ∈ m, 128 ≤ x) (w : List Nat) :
    consume_comment_whitespace_until_maybe_bracket .InLineComment (m ++ w) =
      preC (List.replicate m.length 32)
        (consume_comment_whitespace_until_maybe_bracket .InLineComment w) := by
  induction m with
  | nil => simp [preC_nil]
  | cons c r ih =>
    have hc := h c (List.mem_cons_self _ _)
    rw [List.cons_append, cwub_line, if_neg (show ¬ c = 10 by omega)]
    rw [ih (fun x hx => h x (List.mem_cons_of_mem _ hx)), preC_preC]
    rw [List.length_cons, List.replicate_succ]
    rfl

theorem flatten_replicate_spaces (n : Nat) :
    List.flatten (List.replicate n [32]) = List.replicate n (32 : Nat) := by
  induction n with
  | zero => simp
  | succ k ih => simp [List.replicate_succ, ih]

theorem GroupsValid_replicate_spaces (n : Nat) : GroupsValid (List.replicate n [32]) := by
  intro g hg
  rw [List.eq_of_mem_replicate hg]
  rfl

theorem utf8Valid_parse : ∀ l, utf8Valid l = true →
    ∃ gs, l = List.flatten gs ∧ GroupsValid gs := by
  have main : ∀ (n : Nat) (l : List Nat), l.length ≤ n → utf8Valid l = true →
      ∃ gs, l = List.flatten gs ∧ GroupsValid gs := by
    intro n
    induction n with
    | zero =>
      intro l hlen _
      have hl : l = [] := by
        cases l with
        | nil => rfl
        | cons c r => simp at hlen
      subst hl
      exact ⟨[], rfl, fun g hg => absurd hg (List.not_mem_nil g)⟩
    | succ n IH =>
      intro l hlen h
      cases l with
      | nil => exact ⟨[], rfl, fun g hg => absurd hg (List.not_mem_nil g)⟩
      | cons c r =>
        simp only [List.length_cons] at hlen
        rw [utf8Valid] at h
        by_cases h1 : c < 128
        · rw [if_pos h1] at h
          obtain ⟨gs, rfl, hgs⟩ := IH r (by omega) h
          refine ⟨[c] :: gs, by simp, ?_⟩
          intro g hg
          rcases List.mem_cons.1 hg with rfl | hg
          · simp [isUtf8Group, h1]
          · exact hgs g hg
        · rw [if_neg h1] at h
          by_cases h2 : 194 ≤ c ∧ c ≤ 223
          · rw [if_pos h2] at h
            cases r with
            | nil => rw [utf8Rest1] at h; cases h
            | cons c1 r2 =>
              rw [utf8Rest1] at h
              simp at h
              obtain ⟨hc1, hr⟩ := h
              obtain ⟨gs, rfl, hgs⟩ := IH r2 (by simp at hlen; omega) hr
              refine ⟨[c, c1] :: gs, by simp, ?_⟩
              intro g hg
              rcases List.mem_cons.1 hg with rfl | hg
              · simp [isUtf8Group, hc1]
                omega
              · exact hgs g hg
          · rw [if_neg h2] at h
            by_cases h3 : 224 ≤ c ∧ c ≤ 239
            · rw [if_pos h3] at h
              rcases r with _ | ⟨c1, _ | ⟨c2, r2⟩⟩
              · rw [utf8Rest2] at h; cases h
              · rw [utf8Rest2] at h; cases h
              · rw [utf8Rest2] at h
                simp only [Bool.and_eq_true] at h
                obtain ⟨⟨hc1, hc2⟩, hr⟩ := h
                obtain ⟨gs, rfl, hgs⟩ := IH r2 (by simp at hlen; omega) hr
                refine ⟨[c, c1, c2] :: gs, by simp, ?_⟩
                intro g hg
                rcases List.mem_cons.1 hg with rfl | hg
                · simp [isUtf8Group, hc1, hc2]
                  omega
                · exact hgs g hg
            · rw [if_neg h3] at h
              by_cases h4 : 240 ≤ c ∧ c ≤ 244
              · rw [if_pos h4] at h
                rcases r with _ | ⟨c1, _ | ⟨c2, _ | ⟨c3, r2⟩⟩⟩
                · rw [utf8Rest3] at h; cases h
                · rw [utf8Rest3] at h; cases h
                · rw [utf8Rest3] at h; cases h
                · rw [utf8Rest3] at h
                  simp only [Bool.and_eq_true] at h
                  obtain ⟨⟨⟨hc1, hc2⟩, hc3⟩, hr⟩ := h
                  obtain ⟨gs, rfl, hgs⟩ := IH r2 (by simp at hlen; omega) hr
                  refine ⟨[c, c1, c2, c3] :: gs, by simp, ?_⟩
                  intro g hg
                  rcases List.mem_cons.1 hg with rfl | hg
                  · simp [isUtf8Group, hc1, hc2, hc3]
                    omega
                  · exact hgs g hg
              · rw [if_neg h4] at h
                cases h
  intro l h
  exact main l.length l (le_refl _) h

theorem utf8Valid_flatten_of_groups : ∀ gs, GroupsValid gs →
    utf8Valid (List.flatten gs) = true := by
  intro gs
  induction gs with
  | nil =>
    intro _
    simp only [List.flatten_nil]
    rw [utf8Valid]
  | cons g gs2 ih =>
    intro h
    have hg := h g (List.mem_cons_self _ _)
    have hrest : GroupsValid gs2 := fun g2 hg2 => h g2 (List.mem_cons_of_mem _ hg2)
    rw [List.flatten_cons]
    rcases g with _ | ⟨c, _ | ⟨c1, _ | ⟨c2, _ | ⟨c3, rest⟩⟩⟩⟩
    · simp [isUtf8Group] at hg
    · simp [isUtf8Group] at hg
      rw [List.cons_append, List.nil_append, utf8Valid, if_pos hg]
      exact ih hrest
    · simp [isUtf8Group] at hg
      obtain ⟨⟨h1, h2⟩, h3⟩ := hg
      rw [List.cons_append, List.cons_append, List.nil_append, utf8Valid,
        if_neg (by omega), if_pos ⟨h1, h2⟩, utf8Rest1]
      simp [h3, ih hrest]
    · simp [isUtf8Group] at hg
      obtain ⟨⟨⟨h1, h2⟩, h3⟩, h4⟩ := hg
      have hneg3 : ¬ (194 ≤ c ∧ c ≤ 223) := by omega
      rw [List.cons_append, List.cons_append, List.cons_append, List.nil_append,
        utf8Valid, if_neg (by omega), if_neg hneg3, if_pos ⟨h1, h2⟩, utf8Rest2]
      simp [h3, h4, ih hrest]
    · rcases rest with _ | ⟨c4, rest2⟩
      · simp [isUtf8Group] at hg
        obtain ⟨⟨⟨⟨h1, h2⟩, h3⟩, h4⟩, h5⟩ := hg
        have hneg3 : ¬ (194 ≤ c ∧ c ≤ 223) := by omega
        have hneg4 : ¬ (224 ≤ c ∧ c ≤ 239) := by omega
        rw [List.cons_append, List.cons_append, List.cons_append, List.cons_append,
          List.nil_append, utf8Valid, if_neg (by omega), if_neg hneg3, if_neg hneg4,
          if_pos ⟨h1, h2⟩, utf8Rest3]
        simp [h3, h4, h5, ih hrest]
      · simp [isUtf8Group] at hg

theorem GroupsValid_nil : GroupsValid [] :=
  fun g hg => absurd hg (List.not_mem_nil g)

theorem GroupsValid_append {a b : List (List Nat)} (ha : GroupsValid a)
    (hb : GroupsValid b) : GroupsValid (a ++ b) :=
  fun g hg => (List.mem_append.1 hg).elim (ha g) (hb g)

theorem GroupsValid_cons {g : List Nat} {b : List (List Nat)} (hg : isUtf8Group g = true)
    (hb : GroupsValid b) : GroupsValid (g :: b) := by
  intro g2 hg2
  rcases List.mem_cons.1 hg2 with rfl | hg2
  · exact hg
  · exact hb g2 hg2

theorem ascii_group {c : Nat} (h : c < 128) : isUtf8Group [c] = true := by
  simp [isUtf8Group, h]

theorem top_fst_lt {c : Nat} (h : c < 128) : (top c).1 < 128 := by
  unfold top
  split_ifs <;> simp <;> omega

/-- The grouping invariant on a lookahead result: the rewritten bytes and the
remainder decompose into valid UTF-8 groups, except that the lookahead may
have stopped on the lead byte of a multi-byte character, whose continuation
bytes then head the remainder. -/
def CwubRes : Except (List Nat) (Bool × List Nat × List Nat × State) → Prop
  | .ok (_, out, rem, s2) =>
      (∃ outGs gs2, out = List.flatten outGs ∧ GroupsValid outGs ∧
          rem = List.flatten gs2 ∧ GroupsValid gs2) ∨
      (∃ outGs c m gs2, out = List.flatten outGs ++ [c] ∧ GroupsValid outGs ∧
          isUtf8Group (c :: m) = true ∧ (∀ x ∈ m, 128 ≤ x) ∧
          rem = m ++ List.flatten gs2 ∧ GroupsValid gs2 ∧ s2 = .Top)
  | .error buf => ∃ gs2, buf = List.flatten gs2 ∧ GroupsValid gs2

/-- The grouping invariant on a scan result: the resulting buffer (output or
error payload) decomposes into valid UTF-8 groups. -/
def StripRes : Except (List Nat) (List Nat × State) → Prop
  | .ok (out, _) => ∃ gs2, out = List.flatten gs2 ∧ GroupsValid gs2
  | .error buf => ∃ gs2, buf = List.flatten gs2 ∧ GroupsValid gs2

theorem CwubRes_preC {a : List Nat} (aGs : List (List Nat))
    (haGs : a = List.flatten aGs) (hval : GroupsValid aGs)
    {x : Except (List Nat) (Bool × List Nat × List Nat × State)}
    (hx : CwubRes x) : CwubRes (preC a x) := by
  cases x with
  | error buf =>
    obtain ⟨gs2, rfl, h2⟩ := hx
    exact ⟨aGs ++ gs2, by simp [preC, haGs], GroupsValid_append hval h2⟩
  | ok y =>
    obtain ⟨b, out, rem, s2⟩ := y
    rcases hx with ⟨outGs, gs2, rfl, hOut, rfl, hRem⟩ |
      ⟨outGs, c, m, gs2, hout, hOut, hgrp, hmh, hrem, hRem, rfl⟩
    · exact .inl ⟨aGs ++ outGs, gs2, by simp [preC, haGs], GroupsValid_append hval hOut,
        rfl, hRem⟩
    · refine .inr ⟨aGs ++ outGs, c, m, gs2, ?_, GroupsValid_append hval hOut,
        hgrp, hmh, hrem, hRem, rfl⟩
      simp [preC, haGs, hout]

theorem StripRes_pre {a : List Nat} (aGs : List (List Nat))
    (haGs : a = List.flatten aGs) (hval : GroupsValid aGs)
    {x : Except (List Nat) (List Nat × State)}
    (hx : StripRes x) : StripRes (pre a x) := by
  cases x with
  | error buf =>
    obtain ⟨gs2, rfl, h2⟩ := hx
    exact ⟨aGs ++ gs2, by simp [pre, haGs], GroupsValid_append hval h2⟩
  | ok y =>
    obtain ⟨out, s2⟩ := y
    obtain ⟨gs2, rfl, h2⟩ := hx
    exact ⟨aGs ++ gs2, by simp [pre, haGs], GroupsValid_append hval h2⟩

theorem cwub_utf8 : ∀ (gs : List (List Nat)) (s : State),
    s ≠ .InString → s ≠ .StringEscape → GroupsValid gs →
    CwubRes (consume_comment_whitespace_until_maybe_bracket s (List.flatten gs)) := by
  intro gs
  induction gs with
  | nil =>
    intro s _ _ _
    rw [List.flatten_nil, cwub_nil]
    exact .inl ⟨[], [], rfl, GroupsValid_nil, rfl, GroupsValid_nil⟩
  | cons g gs2 ih =>
    intro s hs1 hs2 hval
    have hg := hval g (List.mem_cons_self _ _)
    have hval2 : GroupsValid gs2 := fun g2 hg2 => hval g2 (List.mem_cons_of_mem _ hg2)
    rcases isUtf8Group_shape hg with ⟨c, rfl, hlt⟩ | ⟨c, m, rfl, hmne, hall⟩
    · -- ASCII group [c]
      rw [List.flatten_cons, List.singleton_append]
      cases s with
      | InString => exact absurd rfl hs1
      | StringEscape => exact absurd rfl hs2
      | Top =>
        by_cases hws : is_ascii_whitespace (top c).1 = true
        · rw [cwub_top_ws hws]
          obtain ⟨hla1, hla2⟩ := top_ws_snd hws
          exact CwubRes_preC [[(top c).1]] (by simp) (GroupsValid_cons
            (ascii_group (top_fst_lt hlt)) GroupsValid_nil)
            (ih (top c).2 hla1 hla2 hval2)
        · rw [cwub_top_stop hws]
          exact .inl ⟨[[(top c).1]], gs2, by simp, GroupsValid_cons
            (ascii_group (top_fst_lt hlt)) GroupsValid_nil, rfl, hval2⟩
      | InComment =>
        by_cases h42 : c = 42
        · subst h42
          rw [cwub_incomment_star]
          exact CwubRes_preC [[32]] (by simp) (GroupsValid_cons (by decide)
            GroupsValid_nil) (ih .InBlockComment (by simp) (by simp) hval2)
        · by_cases h47 : c = 47
          · subst h47
            rw [cwub_incomment_slash]
            exact CwubRes_preC [[32]] (by simp) (GroupsValid_cons (by decide)
              GroupsValid_nil) (ih .InLineComment (by simp) (by simp) hval2)
          · rw [cwub_incomment_bad h42 h47]
            exact ⟨[c] :: gs2, by simp, GroupsValid_cons (ascii_group hlt) hval2⟩
      | InBlockComment =>
        rw [cwub_block]
        refine CwubRes_preC [[32]] (by simp) (GroupsValid_cons (by decide)
          GroupsValid_nil) (ih _ ?_ ?_ hval2) <;> split_ifs <;> simp
      | MaybeCommentEnd =>
        rw [cwub_mce]
        have hcases := maybe_comment_end_cases c
        refine CwubRes_preC [[32]] (by simp) (GroupsValid_cons (by decide)
          GroupsValid_nil) (ih _ ?_ ?_ hval2) <;>
          rcases hcases with h | h | h <;> rw [h] <;> simp
      | InLineComment =>
        rw [cwub_line]
        by_cases h10 : c = 10
        · rw [if_pos h10]
          exact CwubRes_preC [[10]] (by simp) (GroupsValid_cons (by decide)
            GroupsValid_nil) (ih .Top (by simp) (by simp) hval2)
        · rw [if_neg h10]
          exact CwubRes_preC [[32]] (by simp) (GroupsValid_cons (by decide)
            GroupsValid_nil) (ih .InLineComment (by simp) (by simp) hval2)
    · -- multi-byte group c :: m (all bytes ≥ 0x80)
      have hc : 128 ≤ c := hall c (List.mem_cons_self _ _)
      have hmh : ∀ x ∈ m, 128 ≤ x := fun x hx => hall x (List.mem_cons_of_mem _ hx)
      rw [List.flatten_cons, List.cons_append]
      cases s with
      | InString => exact absurd rfl hs1
      | StringEscape => exact absurd rfl hs2
      | Top =>
        have hws : ¬ is_ascii_whitespace (top c).1 = true := by
          rw [high_top hc]
          simp [high_not_ws hc]
        rw [cwub_top_stop hws, high_top hc]
        exact .inr ⟨[], c, m, gs2, by simp, GroupsValid_nil, hg, hmh, rfl, hval2, rfl⟩
      | InComment =>
        rw [cwub_incomment_bad (by omega) (by omega)]
        exact ⟨(c :: m) :: gs2, by simp, GroupsValid_cons hg hval2⟩
      | InBlockComment =>
        rw [show (c :: (m ++ List.flatten gs2)) = (c :: m) ++ List.flatten gs2 from rfl,
          cwub_high_block hall]
        exact CwubRes_preC (List.replicate (c :: m).length [32])
          (by rw [flatten_replicate_spaces]) (GroupsValid_replicate_spaces _)
          (ih .InBlockComment (by simp) (by simp) hval2)
      | MaybeCommentEnd =>
        rw [cwub_mce, high_mce hc, cwub_high_block hmh, preC_preC]
        exact CwubRes_preC (List.replicate (m.length + 1) [32])
          (by rw [flatten_replicate_spaces, List.replicate_succ]; rfl)
          (GroupsValid_replicate_spaces _)
          (ih .InBlockComment (by simp) (by simp) hval2)
      | InLineComment =>
        rw [cwub_line, if_neg (show ¬ c = 10 by omega), cwub_high_line hmh, preC_preC]
        exact CwubRes_preC (List.replicate (m.length + 1) [32])
          (by rw [flatten_replicate_spaces, List.replicate_succ]; rfl)
          (GroupsValid_replicate_spaces _)
          (ih .InLineComment (by simp) (by simp) hval2)

theorem strip_buf_utf8 : ∀ (n : Nat) (gs : List (List Nat)) (s : State),
    (List.flatten gs).length ≤ n → GroupsValid gs →
    StripRes (strip_buf s (List.flatten gs)) := by
  intro n
  induction n with
  | zero =>
    intro gs s hlen _
    have h0 : List.flatten gs = [] := by
      cases h : List.flatten gs with
      | nil => rfl
      | cons a b => rw [h] at hlen; simp at hlen
    rw [h0, strip_buf_nil]
    exact ⟨[], rfl, GroupsValid_nil⟩
  | succ n IH =>
    intro gs s hlen hval
    cases gs with
    | nil =>
      rw [List.flatten_nil, strip_buf_nil]
      exact ⟨[], rfl, GroupsValid_nil⟩
    | cons g gs2 =>
      have hg := hval g (List.mem_cons_self _ _)
      have hval2 : GroupsValid gs2 := fun g2 hg2 => hval g2 (List.mem_cons_of_mem _ hg2)
      have hlen2 : (List.flatten gs2).length ≤ n := by
        rw [List.flatten_cons] at hlen
        cases g with
        | nil => simp [isUtf8Group] at hg
        | cons a b =>
          rw [List.length_append] at hlen
          simp only [List.length_cons] at hlen
          omega
      rcases isUtf8Group_shape hg with ⟨c, rfl, hlt⟩ | ⟨c, m, rfl, hmne, hall⟩
      · -- ASCII group [c]
        rw [List.flatten_cons, List.singleton_append]
        cases s with
        | Top =>
          by_cases h44 : c = 44
          · subst h44
            rw [strip_buf_top_comma]
            have hcw := cwub_utf8 gs2 .Top (by simp) (by simp) hval2
            cases hx : consume_comment_whitespace_until_maybe_bracket .Top
                (List.flatten gs2) with
            | error buf =>
              rw [hx] at hcw
              obtain ⟨gsE, rfl, hE⟩ := hcw
              dsimp only
              exact ⟨[44] :: gsE, by simp, GroupsValid_cons (by decide) hE⟩
            | ok y =>
              obtain ⟨b, out, rem, s2⟩ := y
              rw [hx] at hcw
              dsimp only
              have hlenr : rem.length ≤ (List.flatten gs2).length := by
                have h2 := cwub_length .Top (List.flatten gs2)
                rw [hx] at h2
                dsimp only at h2
                omega
              rcases hcw with ⟨outGs, rGs, rfl, hOutV, rfl, hRV⟩ |
                ⟨outGs, cs, m, rGs, hout, hOutV, hgrp, hmh, hrem, hRV, rfl⟩
              · have hres := IH rGs s2 (by omega) hRV
                exact StripRes_pre ([(if b then 32 else 44)] :: outGs) (by simp)
                  (GroupsValid_cons (by cases b <;> decide) hOutV) hres
              · have hlr : (List.flatten rGs).length ≤ rem.length := by
                  rw [hrem]
                  simp
                have hres := IH rGs .Top (by omega) hRV
                rw [hrem, strip_buf_high_top hmh, pre_pre, hout]
                exact StripRes_pre ([(if b then 32 else 44)] :: (outGs ++ [cs :: m]))
                  (by simp [List.append_assoc])
                  (GroupsValid_cons (by cases b <;> decide)
                    (GroupsValid_append hOutV (GroupsValid_cons hgrp GroupsValid_nil)))
                  hres
          · rw [strip_buf_top h44]
            exact StripRes_pre [[(top c).1]] (by simp)
              (GroupsValid_cons (ascii_group (top_fst_lt hlt)) GroupsValid_nil)
              (IH gs2 (top c).2 hlen2 hval2)
        | InString =>
          rw [strip_buf_instring]
          exact StripRes_pre [[c]] (by simp)
            (GroupsValid_cons (ascii_group hlt) GroupsValid_nil)
            (IH gs2 (in_string c) hlen2 hval2)
        | StringEscape =>
          rw [strip_buf_escape]
          exact StripRes_pre [[c]] (by simp)
            (GroupsValid_cons (ascii_group hlt) GroupsValid_nil)
            (IH gs2 .InString hlen2 hval2)
        | InComment =>
          by_cases h42 : c = 42
          · subst h42
            rw [strip_buf_incomment_star]
            exact StripRes_pre [[32]] (by simp)
              (GroupsValid_cons (by decide) GroupsValid_nil)
              (IH gs2 .InBlockComment hlen2 hval2)
          · by_cases h47 : c = 47
            · subst h47
              rw [strip_buf_incomment_slash]
              exact StripRes_pre [[32]] (by simp)
                (GroupsValid_cons (by decide) GroupsValid_nil)
                (IH gs2 .InLineComment hlen2 hval2)
            · rw [strip_buf_incomment_bad h42 h47]
              exact ⟨[c] :: gs2, by simp, GroupsValid_cons (ascii_group hlt) hval2⟩
        | InBlockComment =>
          rw [strip_buf_block]
          exact StripRes_pre [[32]] (by simp)
            (GroupsValid_cons (by decide) GroupsValid_nil)
            (IH gs2 _ hlen2 hval2)
        | MaybeCommentEnd =>
          rw [strip_buf_mce]
          exact StripRes_pre [[32]] (by simp)
            (GroupsValid_cons (by decide) GroupsValid_nil)
            (IH gs2 _ hlen2 hval2)
        | InLineComment =>
          rw [strip_buf_line]
          by_cases h10 : c = 10
          · rw [if_pos h10]
            exact StripRes_pre [[10]] (by simp)
              (GroupsValid_cons (by decide) GroupsValid_nil)
              (IH gs2 .Top hlen2 hval2)
          · rw [if_neg h10]
            exact StripRes_pre [[32]] (by simp)
              (GroupsValid_cons (by decide) GroupsValid_nil)
              (IH gs2 .InLineComment hlen2 hval2)
      · -- multi-byte group c :: m
        have hc : 128 ≤ c := hall c (List.mem_cons_self _ _)
        have hmh : ∀ x ∈ m, 128 ≤ x := fun x hx => hall x (List.mem_cons_of_mem _ hx)
        rw [List.flatten_cons, List.cons_append]
        cases s with
        | Top =>
          rw [show c :: (m ++ List.flatten gs2) = (c :: m) ++ List.flatten gs2 from rfl,
            strip_buf_high_top hall]
          exact StripRes_pre [c :: m] (by simp) (GroupsValid_cons hg GroupsValid_nil)
            (IH gs2 .Top hlen2 hval2)
        | InString =>
          rw [show c :: (m ++ List.flatten gs2) = (c :: m) ++ List.flatten gs2 from rfl,
            strip_buf_high_instring hall]
          exact StripRes_pre [c :: m] (by simp) (GroupsValid_cons hg GroupsValid_nil)
            (IH gs2 .InString hlen2 hval2)
        | StringEscape =>
          rw [strip_buf_escape, strip_buf_high_instring hmh, pre_pre]
          exact StripRes_pre [c :: m] (by simp) (GroupsValid_cons hg GroupsValid_nil)
            (IH gs2 .InString hlen2 hval2)
        | InComment =>
          rw [strip_buf_incomment_bad (by omega) (by omega)]
          exact ⟨(c :: m) :: gs2, by simp, GroupsValid_cons hg hval2⟩
        | InBlockComment =>
          rw [show c :: (m ++ List.flatten gs2) = (c :: m) ++ List.flatten gs2 from rfl,
            strip_buf_high_block hall]
          exact StripRes_pre (List.replicate (c :: m).length [32])
            (by rw [flatten_replicate_spaces]) (GroupsValid_replicate_spaces _)
            (IH gs2 .InBlockComment hlen2 hval2)
        | MaybeCommentEnd =>
          rw [strip_buf_mce, high_mce hc, strip_buf_high_block hmh, pre_pre]
          exact StripRes_pre (List.replicate (m.length + 1) [32])
            (by rw [flatten_replicate_spaces, List.replicate_succ]; rfl)
            (GroupsValid_replicate_spaces _)
            (IH gs2 .InBlockComment hlen2 hval2)
        | InLineComment =>
          rw [strip_buf_line, if_neg (show ¬ c = 10 by omega), strip_buf_high_line hmh,
            pre_pre]
          exact StripRes_pre (List.replicate (m.length + 1) [32])
            (by rw [flatten_replicate_spaces, List.replicate_succ]; rfl)
            (GroupsValid_replicate_spaces _)
            (IH gs2 .InLineComment hlen2 hval2)

/-! ## Claim theorems -/

/-- C1: the claim states that `\n`/`\r` bytes inside block comments (and `\r`
inside line comments) are preserved verbatim.  The code disagrees: evaluating
the transform on `/*\n*/` blanks the inner `\n` (output is five spaces), and
on `//c\r\n` blanks the `\r` (only the terminating `\n` survives). -/
theorem C1_newline_blanked_in_comments :
    strip_comments_in_place [47, 42, 10, 42, 47] = .ok [32, 32, 32, 32, 32] ∧
    strip_comments_in_place [47, 47, 99, 13, 10] = .ok [32, 32, 32, 32, 10] := by
  constructor <;>
    simp [strip_comments_in_place, strip_buf_nil, strip_buf_top, strip_buf_top_comma, strip_buf_instring,
    strip_buf_escape, strip_buf_incomment_star, strip_buf_incomment_slash,
    strip_buf_incomment_bad, strip_buf_block, strip_buf_mce, strip_buf_line,
    cwub_nil, cwub_top_ws, cwub_top_stop, cwub_instring, cwub_escape,
    cwub_incomment_star, cwub_incomment_slash, cwub_incomment_bad, cwub_block,
    cwub_mce, cwub_line, top, in_string, maybe_comment_end, is_ascii_whitespace,
    pre, preC]

/-- C2 counterexample: feeding `[1,]` as the two chunks `[1,` and `]` through
the streaming adapter leaves the trailing comma in place, while the
single-call transform on the whole input blanks it. -/
theorem C2_counterexample_chunked_comma :
    StripComments.readAll .Top [[91, 49, 44], [93]] = .ok [91, 49, 44, 93] ∧
    strip_comments_in_place [91, 49, 44, 93] = .ok [91, 49, 32, 93] ∧
    [91, 49, 44, 93] ≠ ([91, 49, 32, 93] : List Nat) := by
  refine ⟨?_, ?_, by decide⟩ <;>
    simp [StripComments.readAll, StripComments.read, strip_comments_in_place, strip_buf_nil, strip_buf_top, strip_buf_top_comma, strip_buf_instring,
    strip_buf_escape, strip_buf_incomment_star, strip_buf_incomment_slash,
    strip_buf_incomment_bad, strip_buf_block, strip_buf_mce, strip_buf_line,
    cwub_nil, cwub_top_ws, cwub_top_stop, cwub_instring, cwub_escape,
    cwub_incomment_star, cwub_incomment_slash, cwub_incomment_bad, cwub_block,
    cwub_mce, cwub_line, top, in_string, maybe_comment_end, is_ascii_whitespace,
    pre, preC]

/-- C2 amended: for the whole input fed as one chunk, the streaming adapter
produces exactly the bytes of the single-call transform, and succeeds iff the
single-call transform succeeds with a final scan state of `Top` or
`InLineComment` (the extra end-of-input check only the adapter performs). -/
theorem C2_single_chunk_refinement (l : List Nat) :
    StripComments.readAll .Top [l] =
      (match strip_buf .Top l with
       | .ok (out, s2) =>
           if s2 = .Top ∨ s2 = .InLineComment then .ok out else .error ()
       | .error _ => .error ()) := by
  cases hsb : strip_buf .Top l with
  | error buf =>
    cases l with
    | nil => rw [strip_buf_nil] at hsb; cases hsb
    | cons c r => simp [StripComments.readAll, StripComments.read, hsb]
  | ok y =>
    obtain ⟨out, s2⟩ := y
    cases l with
    | nil =>
      rw [strip_buf_nil] at hsb
      cases hsb
      simp [StripComments.readAll, StripComments.read, strip_buf_nil]
    | cons c r =>
      by_cases h2 : s2 = .Top ∨ s2 = .InLineComment
      · have h3 : ¬ (s2 ≠ State.Top ∧ s2 ≠ State.InLineComment) := by tauto
        simp [StripComments.readAll, StripComments.read, hsb, h2, h3]
      · have h3 : s2 ≠ State.Top ∧ s2 ≠ State.InLineComment := by tauto
        simp [StripComments.readAll, StripComments.read, hsb, h3]

/-- C4 counterexample: on `[1,,]` the code blanks no comma at all (the second
comma is consumed as the stop byte of the first comma's lookahead and never
gets its own lookahead), contradicting the claim that exactly the comma
before `]` is blanked. -/
theorem C4_counterexample_double_comma :
    strip_comments_in_place [91, 49, 44, 44, 93] = .ok [91, 49, 44, 44, 93] ∧
    strip_comments_in_place [91, 49, 44, 44, 93] ≠ .ok [91, 49, 44, 32, 93] := by
  have h : strip_comments_in_place [91, 49, 44, 44, 93] = .ok [91, 49, 44, 44, 93] := by
    simp [strip_comments_in_place, strip_buf_nil, strip_buf_top, strip_buf_top_comma, strip_buf_instring,
    strip_buf_escape, strip_buf_incomment_star, strip_buf_incomment_slash,
    strip_buf_incomment_bad, strip_buf_block, strip_buf_mce, strip_buf_line,
    cwub_nil, cwub_top_ws, cwub_top_stop, cwub_instring, cwub_escape,
    cwub_incomment_star, cwub_incomment_slash, cwub_incomment_bad, cwub_block,
    cwub_mce, cwub_line, top, in_string, maybe_comment_end, is_ascii_whitespace,
    pre, preC]
  exact ⟨h, by rw [h]; simp⟩

/-- C4 amended: a comma scanned at `Top` is blanked exactly when the lookahead
over the following whitespace/comments reports a closing bracket, and the main
scan resumes where the lookahead stopped — so a comma consumed as another
comma's lookahead stop byte is never itself evaluated: `[1,]` becomes `[1 ]`
but `[1,,]` is returned unchanged. -/
theorem C4_comma_blanked_iff_lookahead_bracket :
    (∀ (rest : List Nat) (b : Bool) (out rem : List Nat) (s2 : State),
       consume_comment_whitespace_until_maybe_bracket .Top rest = .ok (b, out, rem, s2) →
       strip_buf .Top (44 :: rest) =
         pre ((if b then 32 else 44) :: out) (strip_buf s2 rem)) ∧
    strip_comments_in_place [91, 49, 44, 93] = .ok [91, 49, 32, 93] ∧
    strip_comments_in_place [91, 49, 44, 44, 93] = .ok [91, 49, 44, 44, 93] := by
  refine ⟨?_, ?_, ?_⟩
  · intro rest b out rem s2 h
    rw [strip_buf_top_comma, h]
  · simp [strip_comments_in_place, strip_buf_nil, strip_buf_top, strip_buf_top_comma, strip_buf_instring,
    strip_buf_escape, strip_buf_incomment_star, strip_buf_incomment_slash,
    strip_buf_incomment_bad, strip_buf_block, strip_buf_mce, strip_buf_line,
    cwub_nil, cwub_top_ws, cwub_top_stop, cwub_instring, cwub_escape,
    cwub_incomment_star, cwub_incomment_slash, cwub_incomment_bad, cwub_block,
    cwub_mce, cwub_line, top, in_string, maybe_comment_end, is_ascii_whitespace,
    pre, preC]
  · simp [strip_comments_in_place, strip_buf_nil, strip_buf_top, strip_buf_top_comma, strip_buf_instring,
    strip_buf_escape, strip_buf_incomment_star, strip_buf_incomment_slash,
    strip_buf_incomment_bad, strip_buf_block, strip_buf_mce, strip_buf_line,
    cwub_nil, cwub_top_ws, cwub_top_stop, cwub_instring, cwub_escape,
    cwub_incomment_star, cwub_incomment_slash, cwub_incomment_bad, cwub_block,
    cwub_mce, cwub_line, top, in_string, maybe_comment_end, is_ascii_whitespace,
    pre, preC]

/-- C4 witness: the comma rule applied at the concrete lookahead `]`. -/
theorem C4_comma_blanked_iff_lookahead_bracket_witness :
    strip_buf .Top (44 :: [93]) =
      pre ((if true then 32 else 44) :: [93]) (strip_buf .Top []) :=
  C4_comma_blanked_iff_lookahead_bracket.1 [93] true [93] [] .Top
    (by simp [strip_buf_nil, strip_buf_top, strip_buf_top_comma, strip_buf_instring,
    strip_buf_escape, strip_buf_incomment_star, strip_buf_incomment_slash,
    strip_buf_incomment_bad, strip_buf_block, strip_buf_mce, strip_buf_line,
    cwub_nil, cwub_top_ws, cwub_top_stop, cwub_instring, cwub_escape,
    cwub_incomment_star, cwub_incomment_slash, cwub_incomment_bad, cwub_block,
    cwub_mce, cwub_line, top, in_string, maybe_comment_end, is_ascii_whitespace,
    pre, preC])

/-- C5 counterexample: passing settings with `hash_line_comments := some false`
to the wasm `strip` does not make a `#` comment report `InvalidData`; the
settings are ignored, no error can be reported (the `Result` is discarded),
and the comment is blanked exactly as with all styles enabled. -/
theorem C5_counterexample_disabled_hash_ignored :
    Wasm.strip [35, 99] (some ⟨some true, some true, some false, some true⟩) = [32, 32] ∧
    Wasm.strip [35, 99] (some ⟨some true, some true, some false, some true⟩) =
      Wasm.strip [35, 99] (some ⟨some true, some true, some true, some true⟩) := by
  constructor <;>
    simp [Wasm.strip, strip_comments_in_place, strip_buf_nil, strip_buf_top, strip_buf_top_comma, strip_buf_instring,
    strip_buf_escape, strip_buf_incomment_star, strip_buf_incomment_slash,
    strip_buf_incomment_bad, strip_buf_block, strip_buf_mce, strip_buf_line,
    cwub_nil, cwub_top_ws, cwub_top_stop, cwub_instring, cwub_escape,
    cwub_incomment_star, cwub_incomment_slash, cwub_incomment_bad, cwub_block,
    cwub_mce, cwub_line, top, in_string, maybe_comment_end, is_ascii_whitespace,
    pre, preC]

/-- C5 amended: the core stripping operations take no settings at all; the
wasm binding keeps a legacy `CommentSettings` (four optional flags) for
backward compatibility and ignores it — the output is independent of the
settings value, and a "disabled" style's marker is stripped like any other
comment instead of being reported. -/
theorem C5_settings_ignored :
    (∀ (l : List Nat) (s1 s2 : Option CommentSettings), Wasm.strip l s1 = Wasm.strip l s2) ∧
    Wasm.strip [35, 99] (some ⟨some false, some false, some false, some false⟩) = [32, 32] ∧
    Wasm.strip [35, 99] none = [32, 32] := by
  refine ⟨fun l s1 s2 => rfl, ?_, ?_⟩ <;>
    simp [Wasm.strip, strip_comments_in_place, strip_buf_nil, strip_buf_top, strip_buf_top_comma, strip_buf_instring,
    strip_buf_escape, strip_buf_incomment_star, strip_buf_incomment_slash,
    strip_buf_incomment_bad, strip_buf_block, strip_buf_mce, strip_buf_line,
    cwub_nil, cwub_top_ws, cwub_top_stop, cwub_instring, cwub_escape,
    cwub_incomment_star, cwub_incomment_slash, cwub_incomment_bad, cwub_block,
    cwub_mce, cwub_line, top, in_string, maybe_comment_end, is_ascii_whitespace,
    pre, preC]

/-- C10: whenever an inner read returns zero bytes (including a zero-length
destination buffer), `StripComments::read` fails with `InvalidData` exactly
when the persisted scanner state is neither `Top` nor `InLineComment`. -/
theorem C10_zero_byte_read_state_check (s : State) :
    StripComments.read s [] =
      (if s = .Top ∨ s = .InLineComment then .ok ([], s) else .error []) := by
  cases s <;> simp [StripComments.read]

/-- C7: every scan — the general `strip_buf` under any entry state, and the
full-buffer `strip_comments_in_place` — preserves the buffer length, both on
success and on failure (bytes are only overwritten, never inserted/removed). -/
theorem C7_length_preserved :
    (∀ (s : State) (l : List Nat),
       (match strip_buf s l with
        | .ok (out, _) => out.length = l.length
        | .error buf => buf.length = l.length)) ∧
    (∀ l : List Nat,
       (match strip_comments_in_place l with
        | .ok out => out.length = l.length
        | .error buf => buf.length = l.length)) := by
  refine ⟨strip_buf_length, fun l => ?_⟩
  have h := strip_buf_length .Top l
  unfold strip_comments_in_place
  cases hx : strip_buf .Top l with
  | ok y =>
    obtain ⟨out, s2⟩ := y
    rw [hx] at h
    simpa using h
  | error buf =>
    rw [hx] at h
    simpa using h

/-- C6: a properly quoted (possibly escape-containing) string literal at the
head of the remaining input is passed through byte-for-byte — its body and
both quotes are emitted unchanged and the scan resumes at `Top` after the
closing quote — and concretely the input `{"a":"b//c"}` is returned
unchanged. -/
theorem C6_string_content_immutable :
    (∀ (m w : List Nat), isStringBodyFrom false m = true →
       strip_buf .Top (34 :: (m ++ 34 :: w)) =
         pre (34 :: (m ++ [34])) (strip_buf .Top w)) ∧
    strip_comments_in_place [123, 34, 97, 34, 58, 34, 98, 47, 47, 99, 34, 125] =
      .ok [123, 34, 97, 34, 58, 34, 98, 47, 47, 99, 34, 125] := by
  constructor
  · intro m w h
    rw [strip_buf_top (by decide), show (top 34).2 = State.InString from rfl]
    have h2 := strip_buf_string_body h w
    rw [show cond false State.StringEscape State.InString = State.InString from rfl] at h2
    rw [h2, pre_pre]
    rfl
  · simp [strip_comments_in_place, strip_buf_nil, strip_buf_top, strip_buf_top_comma, strip_buf_instring,
    strip_buf_escape, strip_buf_incomment_star, strip_buf_incomment_slash,
    strip_buf_incomment_bad, strip_buf_block, strip_buf_mce, strip_buf_line,
    cwub_nil, cwub_top_ws, cwub_top_stop, cwub_instring, cwub_escape,
    cwub_incomment_star, cwub_incomment_slash, cwub_incomment_bad, cwub_block,
    cwub_mce, cwub_line, top, in_string, maybe_comment_end, is_ascii_whitespace,
    pre, preC]

/-- C6 witness: the string-immutability rule applied to the literal `"b//c"`
followed by `}`. -/
theorem C6_string_content_immutable_witness :
    strip_buf .Top (34 :: ([98, 47, 47, 99] ++ 34 :: [125])) =
      pre (34 :: ([98, 47, 47, 99] ++ [34])) (strip_buf .Top [125]) :=
  C6_string_content_immutable.1 [98, 47, 47, 99] [125] (by decide)

/-- C3 counterexample: the claim says the full-buffer in-place transform on
`"foo` (an unterminated string) fails with `InvalidData`; in the code only the
streaming adapter performs the end-of-input state check, and
`strip_comments_in_place` on `"foo` succeeds, returning the buffer unchanged. -/
theorem C3_counterexample_in_place_unterminated :
    strip_comments_in_place [34, 102, 111, 111] = .ok [34, 102, 111, 111] := by
  simp [strip_comments_in_place, strip_buf_nil, strip_buf_top, strip_buf_top_comma, strip_buf_instring,
    strip_buf_escape, strip_buf_incomment_star, strip_buf_incomment_slash,
    strip_buf_incomment_bad, strip_buf_block, strip_buf_mce, strip_buf_line,
    cwub_nil, cwub_top_ws, cwub_top_stop, cwub_instring, cwub_escape,
    cwub_incomment_star, cwub_incomment_slash, cwub_incomment_bad, cwub_block,
    cwub_mce, cwub_line, top, in_string, maybe_comment_end, is_ascii_whitespace,
    pre, preC]

/-- C3 amended: (i) the mid-scan error transition happens exactly on a byte
after `/` that is neither `*` nor `/`; (ii) an input containing no `/` can
never make the in-place transform fail; (iii) the in-place transform on the
unterminated string `"foo` succeeds (no end-of-input check), while (iv) the
streaming adapter on the same input fails with `InvalidData` at end-of-input. -/
theorem C3_invalid_data_situations :
    (∀ c : Nat, in_comment c = .error () ↔ (c ≠ 42 ∧ c ≠ 47)) ∧
    (∀ l : List Nat, 47 ∉ l → ∃ out, strip_comments_in_place l = .ok out) ∧
    strip_comments_in_place [34, 102, 111, 111] = .ok [34, 102, 111, 111] ∧
    StripComments.readAll .Top [[34, 102, 111, 111]] = .error () := by
  refine ⟨?_, ?_, ?_, ?_⟩
  · intro c
    unfold in_comment
    split_ifs <;> simp_all
  · intro l hl
    obtain ⟨out, s2, h⟩ := strip_buf_no_slash .Top l hl (by simp)
    exact ⟨out, by unfold strip_comments_in_place; rw [h]⟩
  · simp [strip_comments_in_place, strip_buf_nil, strip_buf_top, strip_buf_top_comma, strip_buf_instring,
    strip_buf_escape, strip_buf_incomment_star, strip_buf_incomment_slash,
    strip_buf_incomment_bad, strip_buf_block, strip_buf_mce, strip_buf_line,
    cwub_nil, cwub_top_ws, cwub_top_stop, cwub_instring, cwub_escape,
    cwub_incomment_star, cwub_incomment_slash, cwub_incomment_bad, cwub_block,
    cwub_mce, cwub_line, top, in_string, maybe_comment_end, is_ascii_whitespace,
    pre, preC]
  · simp [StripComments.readAll, StripComments.read, strip_buf_nil, strip_buf_top, strip_buf_top_comma, strip_buf_instring,
    strip_buf_escape, strip_buf_incomment_star, strip_buf_incomment_slash,
    strip_buf_incomment_bad, strip_buf_block, strip_buf_mce, strip_buf_line,
    cwub_nil, cwub_top_ws, cwub_top_stop, cwub_instring, cwub_escape,
    cwub_incomment_star, cwub_incomment_slash, cwub_incomment_bad, cwub_block,
    cwub_mce, cwub_line, top, in_string, maybe_comment_end, is_ascii_whitespace,
    pre, preC]

/-- C3 witness: the error characterization at byte `a` (97), and the no-slash
totality at the concrete input `a`. -/
theorem C3_invalid_data_situations_witness :
    (in_comment 97 = .error () ↔ (97 ≠ 42 ∧ 97 ≠ 47)) ∧
    (∃ out, strip_comments_in_place [97] = .ok out) :=
  ⟨C3_invalid_data_situations.1 97, C3_invalid_data_situations.2.1 [97] (by decide)⟩

/-- C8: the transform is idempotent on its own output: whenever the in-place
transform succeeds, running it again on the result succeeds and changes no
byte. -/
theorem C8_idempotent_on_output :
    ∀ (l out : List Nat), strip_comments_in_place l = .ok out →
      strip_comments_in_place out = .ok out := by
  intro l out h
  unfold strip_comments_in_place at h ⊢
  cases hx : strip_buf .Top l with
  | error buf =>
    rw [hx] at h
    cases h
  | ok y =>
    obtain ⟨out0, sf⟩ := y
    rw [hx] at h
    dsimp only at h
    injection h with h3
    subst h3
    have h2 := strip_buf_idem_sim .Top l out0 sf hx
    rw [show phi State.Top = State.Top from rfl] at h2
    rw [h2]

/-- C8 witness: stripping `/**/` gives four spaces, and stripping those four
spaces again is the identity. -/
theorem C8_idempotent_on_output_witness :
    strip_comments_in_place [32, 32, 32, 32] = .ok [32, 32, 32, 32] :=
  C8_idempotent_on_output [47, 42, 42, 47] [32, 32, 32, 32]
    (by simp [strip_comments_in_place, strip_buf_nil, strip_buf_top, strip_buf_top_comma, strip_buf_instring,
    strip_buf_escape, strip_buf_incomment_star, strip_buf_incomment_slash,
    strip_buf_incomment_bad, strip_buf_block, strip_buf_mce, strip_buf_line,
    cwub_nil, cwub_top_ws, cwub_top_stop, cwub_instring, cwub_escape,
    cwub_incomment_star, cwub_incomment_slash, cwub_incomment_bad, cwub_block,
    cwub_mce, cwub_line, top, in_string, maybe_comment_end, is_ascii_whitespace,
    pre, preC])

/-- C9: if the input buffer is valid UTF-8, the buffer left by any scan —
successful or failed, from any entry state, and in particular by
`strip_comments_in_place` — is still valid UTF-8: every special byte the
scanner reacts to is ASCII, so a multi-byte sequence is kept or blanked as a
whole, which is what makes the `unsafe s.as_bytes_mut()` sound for `&mut str`
inputs. -/
theorem C9_utf8_validity_preserved :
    (∀ (s : State) (l : List Nat), utf8Valid l = true →
       (match strip_buf s l with
        | .ok (out, _) => utf8Valid out = true
        | .error buf => utf8Valid buf = true)) ∧
    (∀ l : List Nat, utf8Valid l = true →
       (match strip_comments_in_place l with
        | .ok out => utf8Valid out = true
        | .error buf => utf8Valid buf = true)) := by
  have main : ∀ (s : State) (l : List Nat), utf8Valid l = true →
      (match strip_buf s l with
       | .ok (out, _) => utf8Valid out = true
       | .error buf => utf8Valid buf = true) := by
    intro s l h
    obtain ⟨gs, rfl, hgs⟩ := utf8Valid_parse l h
    have hres := strip_buf_utf8 (List.flatten gs).length gs s (le_refl _) hgs
    cases hx : strip_buf s (List.flatten gs) with
    | ok y =>
      obtain ⟨out, s2⟩ := y
      rw [hx] at hres
      obtain ⟨gs2, rfl, h2⟩ := hres
      exact utf8Valid_flatten_of_groups gs2 h2
    | error buf =>
      rw [hx] at hres
      obtain ⟨gs2, rfl, h2⟩ := hres
      exact utf8Valid_flatten_of_groups gs2 h2
  refine ⟨main, fun l h => ?_⟩
  have h2 := main .Top l h
  unfold strip_comments_in_place
  cases hx : strip_buf .Top l with
  | ok y =>
    obtain ⟨out, s2⟩ := y
    rw [hx] at h2
    exact h2
  | error buf =>
    rw [hx] at h2
    exact h2

/-- C9 witness: the valid UTF-8 input `//é\n[]` (with a two-byte é inside the
line comment) stays valid UTF-8 after stripping. -/
theorem C9_utf8_validity_preserved_witness :
    utf8Valid [47, 47, 195, 169, 10, 91, 93] = true ∧
    (match strip_comments_in_place [47, 47, 195, 169, 10, 91, 93] with
     | .ok out => utf8Valid out = true
     | .error buf => utf8Valid buf = true) := by
  have hv : utf8Valid [47, 47, 195, 169, 10, 91, 93] = true := by
    simp [utf8Valid, utf8Rest1, utf8Rest2, utf8Rest3, isCont, utf8Cont3, utf8Cont4]
  exact ⟨hv, C9_utf8_validity_preserved.2 [47, 47, 195, 169, 10, 91, 93] hv⟩

end JsonStripComments
